import Mathlib

/-!
Verification of the AlgoMate resume-analysis backend.

A shallow embedding of `src/backend/main.py` (the asynchronous analysis
pipeline: OCR dispatch, the AI-completion retry loop with response
sanitization and repair, the heuristic fallback analyzer, and the background
job runner), together with theorems settling the frozen claims about it.

Modelling conventions:
* Python strings are `List Char` (`Chars`); the helpers (`pyStrip`, `pySplit`,
  `pyLower`, `pyTitle`, `findSub`, `rfindSub`) mirror the corresponding
  Python `str` operations for the ASCII texts the pipeline manipulates.
* `json.loads` is modelled by `json_loads`, a fuel-indexed recursive-descent
  parser over the strict JSON grammar that the standard-library decoder
  accepts: literals, strings with escapes (raw control characters rejected),
  numbers of the shape `-?(0|[1-9][0-9]*)(\.[0-9]+)?([eE][-+]?[0-9]+)?`,
  arrays, and objects (duplicate object keys resolved by last-value-wins in
  insertion position, as for Python dicts).  A numeric literal without
  fraction or exponent is a Python `int` (`Json.num`); one with a fraction
  or exponent is a Python `float`, modelled as the exact decimal it denotes
  (`Json.dec m e` for `m·10^e`) — the binary rounding and overflow a real
  `float` would undergo are idealized away (the pipeline only passes the
  values through, never computes with them), and the non-finite constants
  `NaN`/`Infinity`/`-Infinity` are outside the model.
* The external collaborators (HTTP download, PyPDF2/pytesseract extraction,
  the Gemini completion call, Supabase writes) are behaviour parameters; a
  trace of emitted events (`Event`, `JobEvent`, `FetchEvent`) records the
  observable side effects.  Confidence scores flow through the pipeline
  opaquely and are modelled as `Nat`.
* Pydantic `AIAnalysisResult` construction is modelled in two parts:
  `buildResult` is the `dict.get` defaulting of the construction site's
  keyword arguments, and `validAnalysisData` is the validation of those
  values against the declared field types (a `Dict[str, Any]` field needs an
  object, `str` a string, `List[str]`/`List[Dict[str, Any]]` an array of
  strings/objects, and `Optional` additionally admits `null`), after
  pydantic's default mode on JSON-origin values (v2 smart mode — current
  FastAPI installs pydantic v2; the numeric-to-string coercions pydantic v1
  would additionally perform are outside the model).  A `ValidationError`
  takes the orchestrator's generic exception path (retry, then fallback).
-/

set_option linter.unusedVariables false

abbrev Chars := List Char

def chars (s : String) : Chars := s.data

/-! ## Python string helpers -/

/-- Whitespace for `str.strip` / `str.split` / regex `\s` (ASCII range). -/
def isPyWs (c : Char) : Bool :=
  [' ', '\t', '\n', '\r', '\x0b', '\x0c'].contains c

/-- Python `str.strip()`. -/
def pyStrip (s : Chars) : Chars :=
  ((s.dropWhile isPyWs).reverse.dropWhile isPyWs).reverse

/-- Python `str.lower()` (ASCII case folding). -/
def pyLower (s : Chars) : Chars := s.map Char.toLower

/-- Worker for `pySplit`: `acc` is the current token, reversed. -/
def pySplitAux : Chars → Chars → List Chars
  | [], acc => if acc.isEmpty then [] else [acc.reverse]
  | c :: rest, acc =>
    if isPyWs c then
      if acc.isEmpty then pySplitAux rest [] else acc.reverse :: pySplitAux rest []
    else pySplitAux rest (c :: acc)

/-- Python `str.split()` with no argument: split on whitespace runs,
    discarding empty tokens. -/
def pySplit (s : Chars) : List Chars := pySplitAux s []

/-- Worker for `pyTitle`: the flag records whether the previous character
    was a letter. -/
def pyTitleAux : Bool → Chars → Chars
  | _, [] => []
  | prevAlpha, c :: rest =>
    if c.isAlpha then
      (if prevAlpha then c.toLower else c.toUpper) :: pyTitleAux true rest
    else
      c :: pyTitleAux false rest

/-- Python `str.title()` (ASCII letters). -/
def pyTitle (s : Chars) : Chars := pyTitleAux false s

/-- Worker for `findSub`, tracking the current index. -/
def findSubAux (pat : Chars) : Chars → Nat → Option Nat
  | [], i => if pat.isEmpty then some i else none
  | c :: rest, i =>
    if pat.isPrefixOf (c :: rest) then some i else findSubAux pat rest (i + 1)

/-- Python `str.find(pat)`: index of the leftmost occurrence
    (`none` for Python's `-1`). -/
def findSub (pat s : Chars) : Option Nat := findSubAux pat s 0

/-- Python `str.rfind(pat)`: index of the rightmost occurrence. -/
def rfindSub (pat s : Chars) : Option Nat :=
  ((List.range (s.length + 1)).filter (fun i => pat.isPrefixOf (s.drop i))).getLast?

/-- Python slice `s[a:b]` (for `0 ≤ a ≤ b`). -/
def pySlice (s : Chars) (a b : Nat) : Chars := (s.drop a).take (b - a)

/-! ## JSON values -/

/-- A JSON value as decoded by Python's `json` module.  `num` is the `int`
    a literal without fraction or exponent decodes to; `dec m e` is the
    `float` a literal with a fraction or exponent decodes to, kept as the
    exact decimal `m·10^e` it denotes (see the header note on floats). -/
inductive Json where
  | null
  | bool (b : Bool)
  | num (n : Int)
  | dec (m : Int) (e : Int)
  | str (s : Chars)
  | arr (elems : List Json)
  | obj (members : List (Chars × Json))

/-- Well-formed values: every object node has pairwise-distinct keys.  A
    Python `dict` satisfies this by construction; it is the precondition
    under which serialization is injective. -/
inductive JsonWf : Json → Prop where
  | null : JsonWf .null
  | bool (b : Bool) : JsonWf (.bool b)
  | num (n : Int) : JsonWf (.num n)
  | dec (m e : Int) : JsonWf (.dec m e)
  | str (s : Chars) : JsonWf (.str s)
  | arr {xs : List Json} : (∀ x ∈ xs, JsonWf x) → JsonWf (.arr xs)
  | obj {ms : List (Chars × Json)} : (ms.map Prod.fst).Nodup →
      (∀ kv ∈ ms, JsonWf kv.2) → JsonWf (.obj ms)

/-! ## The `json.loads` model -/

/-- JSON inter-token whitespace (`json.decoder.WHITESPACE`). -/
def isJsonWs (c : Char) : Bool := [' ', '\t', '\n', '\r'].contains c

def skipWs (s : Chars) : Chars := s.dropWhile isJsonWs

/-- The numeric value of a decimal digit character. -/
def digitVal (c : Char) : Option Nat :=
  if '0' ≤ c && c ≤ '9' then some (c.toNat - 48) else none

/-- Take the leading run of decimal digits, as values. -/
def grabDigits : Chars → (List Nat × Chars)
  | [] => ([], [])
  | c :: rest =>
    match digitVal c with
    | some d => let (ds, r) := grabDigits rest
                (d :: ds, r)
    | none => ([], c :: rest)

/-- An unsigned JSON integer: `0`, or a nonzero digit followed by a digit
    run (the `0|[1-9][0-9]*` alternative of the scanner's number regex). -/
def parseUInt : Chars → Option (Nat × Chars)
  | [] => none
  | c :: rest =>
    match digitVal c with
    | none => none
    | some d =>
      if d = 0 then some (0, rest)
      else
        let (ds, r) := grabDigits rest
        some (ds.foldl (fun x k => x * 10 + k) d, r)

/-- A nonempty digit run as its value (the `[0-9]+` of the scanner's
    fraction and exponent groups — leading zeros allowed there). -/
def parseDigitsRun (cs : Chars) : Option (Nat × Chars) :=
  match grabDigits cs with
  | ([], _) => none
  | (ds, r) => some (ds.foldl (fun x k => x * 10 + k) 0, r)

/-- The exponent part after `e`/`E`: `[-+]?[0-9]+`. -/
def parseExpPart (cs : Chars) : Option (Int × Chars) :=
  match cs with
  | [] => none
  | c :: r =>
    if c == '+' then (parseDigitsRun r).map (fun p => ((p.1 : Int), p.2))
    else if c == '-' then (parseDigitsRun r).map (fun p => (-(p.1 : Int), p.2))
    else (parseDigitsRun (c :: r)).map (fun p => ((p.1 : Int), p.2))

/-- An unsigned JSON number (the scanner's
    `(0|[1-9][0-9]*)(\.[0-9]+)?([eE][-+]?[0-9]+)?`): an `int` when neither
    the fraction nor the exponent group matches, else a `float` as the
    exact decimal the literal denotes. -/
def parseNumberPos (cs : Chars) : Option (Json × Chars) :=
  (parseUInt cs).bind fun ip =>
    match ip.2 with
    | [] => some (Json.num (ip.1 : Int), [])
    | c :: r2 =>
      if c == '.' then
        match grabDigits r2 with
        | ([], _) => some (Json.num (ip.1 : Int), c :: r2)
        | (fds, r3) =>
          let m : Int :=
            (ip.1 : Int) * 10 ^ fds.length +
              (fds.foldl (fun x k => x * 10 + k) 0 : Nat)
          match r3 with
          | [] => some (Json.dec m (-(fds.length : Int)), [])
          | c2 :: r4 =>
            if c2 == 'e' || c2 == 'E' then
              match parseExpPart r4 with
              | some ep => some (Json.dec m (ep.1 - fds.length), ep.2)
              | none => some (Json.dec m (-(fds.length : Int)), c2 :: r4)
            else some (Json.dec m (-(fds.length : Int)), c2 :: r4)
      else if c == 'e' || c == 'E' then
        match parseExpPart r2 with
        | some ep => some (Json.dec (ip.1 : Int) ep.1, ep.2)
        | none => some (Json.num (ip.1 : Int), c :: r2)
      else some (Json.num (ip.1 : Int), c :: r2)

/-- Negation of a parsed number (the leading `-` of the number regex). -/
def negJson : Json → Json
  | .num n => .num (-n)
  | .dec m e => .dec (-m) e
  | j => j

/-- The value of a hexadecimal digit character (either case). -/
def hexVal (c : Char) : Option Nat :=
  if '0' ≤ c && c ≤ '9' then some (c.toNat - 48)
  else if 'a' ≤ c && c ≤ 'f' then some (c.toNat - 87)
  else if 'A' ≤ c && c ≤ 'F' then some (c.toNat - 55)
  else none

/-- Single-character string escapes accepted after a backslash. -/
def escChar : Char → Option Char
  | '"' => some '"'
  | '\\' => some '\\'
  | '/' => some '/'
  | 'b' => some '\x08'
  | 'f' => some '\x0c'
  | 'n' => some '\n'
  | 'r' => some '\r'
  | 't' => some '\t'
  | _ => none

/-- The body of a JSON string after the opening quote, up to and including
    the closing quote.  Strict mode: raw control characters are rejected.
    `\uXXXX` escapes denoting codes Lean's `Char` cannot represent (lone
    surrogates) are rejected; Python would accept them, but no input in
    this development contains one. -/
def strBody : Chars → Option (Chars × Chars)
  | [] => none
  | c :: rest =>
    if c == '"' then some ([], rest)
    else if c == '\\' then
      match rest with
      | [] => none
      | e :: rest1 =>
        if e == 'u' then
          match rest1 with
          | a :: b :: c2 :: d :: rest2 =>
            match hexVal a, hexVal b, hexVal c2, hexVal d with
            | some va, some vb, some vc, some vd =>
              let code := ((va * 16 + vb) * 16 + vc) * 16 + vd
              if code.isValidChar then
                (strBody rest2).map (fun p => (Char.ofNat code :: p.1, p.2))
              else none
            | _, _, _, _ => none
          | _ => none
        else
          match escChar e with
          | some ch => (strBody rest1).map (fun p => (ch :: p.1, p.2))
          | none => none
    else if c.toNat < 32 then none
    else (strBody rest).map (fun p => (c :: p.1, p.2))

/-- Insert a key into an association list dict-style: an existing key keeps
    its position and takes the new value; a new key is appended. -/
def dictInsert : List (Chars × Json) → Chars → Json → List (Chars × Json)
  | [], k, v => [(k, v)]
  | (k0, v0) :: t, k, v =>
    if k0 == k then (k0, v) :: t else (k0, v0) :: dictInsert t k v

/-- Build a Python-dict association list from parsed members
    (last value wins, first position kept). -/
def mkDict (ms : List (Chars × Json)) : List (Chars × Json) :=
  ms.foldl (fun acc kv => dictInsert acc kv.1 kv.2) []

mutual
/-- One JSON value (fuel-indexed so recursion is structural). -/
def jsonVal : Nat → Chars → Option (Json × Chars)
  | 0, _ => none
  | fuel + 1, s =>
    match skipWs s with
    | [] => none
    | c :: rest =>
      if c == '{' then
        let r1 := skipWs rest
        if r1.head? == some '}' then some (.obj [], r1.tail)
        else (jsonMembers fuel r1).map (fun p => (Json.obj (mkDict p.1), p.2))
      else if c == '[' then
        let r1 := skipWs rest
        if r1.head? == some ']' then some (.arr [], r1.tail)
        else (jsonElems fuel r1).map (fun p => (Json.arr p.1, p.2))
      else if c == '"' then
        (strBody rest).map (fun p => (Json.str p.1, p.2))
      else if c == '-' then
        (parseNumberPos rest).map (fun p => (negJson p.1, p.2))
      else if c == 't' then
        match rest with
        | 'r' :: 'u' :: 'e' :: r => some (.bool true, r)
        | _ => none
      else if c == 'f' then
        match rest with
        | 'a' :: 'l' :: 's' :: 'e' :: r => some (.bool false, r)
        | _ => none
      else if c == 'n' then
        match rest with
        | 'u' :: 'l' :: 'l' :: r => some (.null, r)
        | _ => none
      else
        parseNumberPos (c :: rest)

/-- One-or-more comma-separated object members, consuming the closing `}`
    (the empty object is handled in `jsonVal`). -/
def jsonMembers : Nat → Chars → Option (List (Chars × Json) × Chars)
  | 0, _ => none
  | fuel + 1, s =>
    match s with
    | '"' :: rest =>
      (strBody rest).bind (fun kp =>
        match skipWs kp.2 with
        | ':' :: r2 =>
          (jsonVal fuel r2).bind (fun vp =>
            let r4 := skipWs vp.2
            if r4.head? == some ',' then
              (jsonMembers fuel (skipWs r4.tail)).map
                (fun mp => ((kp.1, vp.1) :: mp.1, mp.2))
            else if r4.head? == some '}' then some ([(kp.1, vp.1)], r4.tail)
            else none)
        | _ => none)
    | _ => none

/-- One-or-more comma-separated array elements, consuming the closing `]`
    (the empty array is handled in `jsonVal`). -/
def jsonElems : Nat → Chars → Option (List Json × Chars)
  | 0, _ => none
  | fuel + 1, s =>
    (jsonVal fuel s).bind (fun vp =>
      let r2 := skipWs vp.2
      if r2.head? == some ',' then
        (jsonElems fuel r2.tail).map (fun ep => (vp.1 :: ep.1, ep.2))
      else if r2.head? == some ']' then some ([vp.1], r2.tail)
      else none)
end

/-- `json.loads`: a complete document, allowing trailing whitespace only.
    The fuel `length + 1` never runs out on accepted input (each recursive
    call strictly consumes); on rejected input running out just reports the
    failure `json.loads` would report anyway. -/
def json_loads (s : Chars) : Option Json :=
  match jsonVal (s.length + 1) s with
  | some (v, r) => if (skipWs r).isEmpty then some v else none
  | none => none

/-! ## The serializer (modelled from the spec)

Modelled from the spec: `serialize` of §8's round-trip property — the
repository never serializes a report itself, so this is standard JSON
serialization as `json.dumps` produces it (default separators `", "` and
`": "`; `ensure_ascii` disabled).  Integers render as their decimal digits;
a decimal `m·10^e` renders in the exponent notation `<m>e<e>`, a valid JSON
float literal denoting exactly that decimal.
-/

def hexDigit (n : Nat) : Char :=
  if n < 10 then Char.ofNat (48 + n) else Char.ofNat (87 + n)

def digitChar (d : Nat) : Char := Char.ofNat (48 + d)

/-- JSON escaping of one string character. -/
def escapeChar (c : Char) : Chars :=
  if c == '"' then ['\\', '"']
  else if c == '\\' then ['\\', '\\']
  else if c == '\n' then ['\\', 'n']
  else if c == '\t' then ['\\', 't']
  else if c == '\r' then ['\\', 'r']
  else if c == '\x08' then ['\\', 'b']
  else if c == '\x0c' then ['\\', 'f']
  else if c.toNat < 32 then
    ['\\', 'u', '0', '0', hexDigit (c.toNat / 16), hexDigit (c.toNat % 16)]
  else [c]

def escapeString (s : Chars) : Chars := s.flatMap escapeChar

/-- Worker for `natDigits` (fuel-indexed so recursion is structural and
    kernel-reducible; any fuel above `n` gives the same digits). -/
def natDigitsAux : Nat → Nat → Chars
  | 0, _ => []
  | fuel + 1, n =>
    if n < 10 then [digitChar n]
    else natDigitsAux fuel (n / 10) ++ [digitChar (n % 10)]

/-- Decimal digits of `n`, most significant first. -/
def natDigits (n : Nat) : Chars := natDigitsAux (n + 1) n

/-- Decimal rendering of an integer. -/
def intChars (i : Int) : Chars :=
  if i < 0 then '-' :: natDigits i.natAbs else natDigits i.toNat

mutual
/-- Serialize one value. -/
def serValue : Json → Chars
  | .null => chars "null"
  | .bool true => chars "true"
  | .bool false => chars "false"
  | .num n => intChars n
  | .dec m e => intChars m ++ 'e' :: intChars e
  | .str s => '"' :: (escapeString s ++ ['"'])
  | .arr xs => '[' :: (serElems xs ++ [']'])
  | .obj ms => '{' :: (serMembers ms ++ ['}'])

/-- Array elements, `", "`-separated. -/
def serElems : List Json → Chars
  | [] => []
  | x :: t => serValue x ++ serElemsRest t

def serElemsRest : List Json → Chars
  | [] => []
  | x :: t => ',' :: ' ' :: (serValue x ++ serElemsRest t)

/-- Object members, `", "`-separated, keys `": "`-separated from values. -/
def serMembers : List (Chars × Json) → Chars
  | [] => []
  | (k, v) :: t =>
    '"' :: (escapeString k ++ '"' :: ':' :: ' ' :: (serValue v ++ serMembersRest t))

def serMembersRest : List (Chars × Json) → Chars
  | [] => []
  | (k, v) :: t =>
    ',' :: ' ' :: '"' ::
      (escapeString k ++ '"' :: ':' :: ' ' :: (serValue v ++ serMembersRest t))
end
/-- The fixed instruction text preceding the embedded resume text in
    `create_analysis_prompt` (source lines 232-235). -/
def promptHeader : Chars :=
  chars "\n        You are a technical recruiter. Analyze this resume and provide detailed JSON response:\n\n        RESUME TEXT:\n        "

/-- The fixed instruction text following the embedded resume text: the
    requested JSON schema and guidelines (source lines 236-354). -/
def promptFooter : Chars :=
  chars "\n\n        Return valid JSON with ALL fields populated:\n\n        \x7b\n            \"skills\": \x7b\n                \"technical\": \x7b\n                    \"programming_languages\": [\"extract from resume\"],\n                    \"frameworks_libraries\": [\"extract from resume\"],\n                    \"databases\": [\"extract from resume\"],\n                    \"cloud_platforms\": [\"AWS/Azure/GCP found\"],\n                    \"devops_tools\": [\"Docker/K8s/CI-CD found\"],\n                    \"other_technical\": [\"remaining tech skills\"]\n                \x7d,\n                \"soft_skills\": [\"leadership, communication, etc\"],\n                \"certifications\": [\"certs mentioned\"],\n                \"missing_critical_skills\": [\"skills needed for their level\"]\n            \x7d,\n            \"experience_analysis\": \x7b\n                \"level\": \"Fresher|Junior|Mid-level|Senior|Lead|Principal\",\n                \"total_experience_years\": \"X.Y years\",\n                \"career_progression\": \"Excellent|Good|Average|Poor\",\n                \"industry_exposure\": [\"fintech\", \"healthcare\", etc],\n                \"gaps_in_employment\": \"any gaps found\"\n            \x7d,\n            \"project_analysis\": \x7b\n                \"project_quality\": \"Exceptional|Good|Average|Poor\",\n                \"technical_complexity\": \"High|Medium|Low\",\n                \"business_impact\": \"shows business value or not\",\n                \"standout_projects\": [\"most impressive projects\"],\n                \"missing_project_types\": [\"types needed\"]\n            \x7d,\n            \"education_analysis\": \x7b\n                \"degree_relevance\": \"relevant to tech roles\",\n                \"institution_tier\": \"Tier1|Tier2|Tier3\",\n                \"academic_performance\": \"Excellent|Good|Average\",\n                \"additional_courses\": [\"online courses found\"]\n            \x7d,\n            \"resume_quality\": \x7b\n                \"overall_score\": \"X/10\",\n                \"formatting\": \"Professional|Good|Poor\",\n                \"content_clarity\": \"Clear|Confusing\",\n                \"quantified_achievements\": \"Strong|Weak metrics usage\"\n            \x7d,\n            \"skill_gap_analysis\": \x7b\n                \"for_current_level\": [\"missing skills for current level\"],\n                \"for_next_level\": [\"skills for promotion\"],\n                \"trending_technologies\": [\"2024-25 trending tech to learn\"],\n                \"learning_priority\": \x7b\n                    \"high\": [\"learn in 3 months\"],\n                    \"medium\": [\"learn in 6 months\"],\n                    \"low\": [\"learn in 1 year\"]\n                \x7d\n            \x7d,\n            \"market_competitiveness\": \x7b\n                \"overall_rating\": \"Highly Competitive|Competitive|Moderate|Poor\",\n                \"salary_range_estimate\": \"USD/INR range based on experience\",\n                \"target_companies\": [\"realistic company targets\"],\n                \"competitive_advantages\": [\"what makes them stand out\"],\n                \"major_weaknesses\": [\"what hurts their chances\"]\n            \x7d,\n            \"industry_alignment\": \x7b\n                \"best_fit_roles\": [\"most suitable roles\"],\n                \"emerging_opportunities\": [\"trending roles they can pivot to\"],\n                \"remote_work_readiness\": \"assessment for remote work\"\n            \x7d,\n            \"detailed_recommendations\": [\n                \x7b\n                    \"category\": \"Technical Skills\",\n                    \"recommendation\": \"specific actionable advice\",\n                    \"impact\": \"High|Medium|Low\",\n                    \"timeframe\": \"1-3|3-6|6-12 months\",\n                    \"resources\": [\"specific courses/platforms\"]\n                \x7d,\n                \x7b\n                    \"category\": \"Projects\", \n                    \"recommendation\": \"project suggestions\",\n                    \"impact\": \"High|Medium|Low\",\n                    \"timeframe\": \"timeline\",\n                    \"resources\": [\"guidance\"]\n                \x7d,\n                \x7b\n                    \"category\": \"Experience\",\n                    \"recommendation\": \"career move suggestions\", \n                    \"impact\": \"High|Medium|Low\",\n                    \"timeframe\": \"timeline\",\n                    \"resources\": [\"networking, job boards\"]\n                \x7d,\n                \x7b\n                    \"category\": \"Resume\",\n                    \"recommendation\": \"formatting/content changes\",\n                    \"impact\": \"High|Medium|Low\", \n                    \"timeframe\": \"Immediate|1 week\",\n                    \"resources\": [\"templates, tools\"]\n                \x7d\n            ],\n            \"ats_optimization\": \x7b\n                \"current_ats_score\": \"X/100\",\n                \"missing_keywords\": [\"important keywords for their field\"],\n                \"formatting_issues\": [\"ATS parsing issues\"],\n                \"improvements_needed\": [\"specific ATS improvements\"]\n            \x7d,\n            \"interview_preparation\": \x7b\n                \"technical_readiness\": \"Strong|Moderate|Weak\",\n                \"likely_interview_topics\": [\"based on background\"],\n                \"preparation_suggestions\": [\"focus areas\"]\n            \x7d,\n            \"career_trajectory\": \x7b\n                \"next_logical_step\": \"immediate next role target\",\n                \"5_year_potential\": \"where they could be in 5 years\",\n                \"career_pivot_options\": [\"alternative paths\"]\n            \x7d,\n            \"red_flags\": [\"concerning patterns: job hopping, gaps, inconsistencies\"],\n            \"standout_qualities\": [\"unique strengths that make them memorable\"],\n            \"overall_insights\": \"3-4 sentence comprehensive analysis of current position, competitiveness, and strategic advice\"\n        \x7d\n\n        Guidelines: Be specific, use current 2024-25 market data, provide actionable advice. Every field must have content - no empty arrays.\n        "

/-! ## The AI analysis service (`AIAnalysisService`) -/

/-- The reconciled analysis record (`AIAnalysisResult`, source lines
    121-142).  Fields hold the raw JSON values the construction site
    supplies (see the header note on pydantic validation). -/
structure AIAnalysisResult where
  skills : Json
  experience_level : Json
  focus_areas : Json
  insights : Json
  recommendations : Json
  experience_analysis : Json
  project_analysis : Json
  education_analysis : Json
  resume_quality : Json
  skill_gap_analysis : Json
  market_competitiveness : Json
  industry_alignment : Json
  detailed_recommendations : Json
  ats_optimization : Json
  interview_preparation : Json
  career_trajectory : Json
  red_flags : Json
  standout_qualities : Json
  overall_insights : Json

/-- `dict.get(k, d)`. -/
def dictGet (ms : List (Chars × Json)) (k : Chars) (d : Json) : Json :=
  match ms.lookup k with
  | some v => v
  | none => d

/-- `max_text_length` (source line 228). -/
def max_text_length : Nat := 3000

/-- `AIAnalysisService.create_analysis_prompt` (source lines 224-354):
    truncate the text to 3000 characters (appending a truncation marker)
    and embed it in the fixed instruction template. -/
def create_analysis_prompt (extracted_text : Chars) : Chars :=
  let t :=
    if max_text_length < extracted_text.length then
      extracted_text.take max_text_length ++ chars "...[truncated for analysis]"
    else extracted_text
  promptHeader ++ (t ++ promptFooter)

/-- Markdown fence removal (source lines 383-387): if "```json" occurs,
    slice from just past it to the last occurrence of "```" and strip,
    provided that leaves a forward range. -/
def stripCodeFence (t : Chars) : Chars :=
  match findSub (chars "```json") t with
  | none => t
  | some f =>
    match rfindSub (chars "```") t with
    | none => t
    | some e => if f + 7 < e then pyStrip (pySlice t (f + 7) e) else t

/-- Brace slicing (source lines 389-393): keep the text from the first `{`
    through the last `}` when both exist in that order. -/
def sliceToBraces (t : Chars) : Chars :=
  match findSub ['{'] t, rfindSub ['}'] t with
  | some sb, some eb => if sb < eb then pySlice t sb (eb + 1) else t
  | _, _ => t

/-- Lookahead for the trailing-comma regex: whitespace run then a closing
    brace/bracket, returning it and the remainder past it. -/
def wsCloser : Chars → Option (Char × Chars)
  | [] => none
  | c :: rest =>
    if c == '}' || c == ']' then some (c, rest)
    else if isPyWs c then wsCloser rest
    else none

/-- Worker for `strip_trailing_commas` (fuel-indexed; each step consumes at
    least one character, so fuel `length` never runs out). -/
def dropCommasAux : Nat → Chars → Chars
  | 0, s => s
  | _ + 1, [] => []
  | fuel + 1, c :: rest =>
    if c == ',' then
      match wsCloser rest with
      | some (cl, r) => cl :: dropCommasAux fuel r
      | none => c :: dropCommasAux fuel rest
    else c :: dropCommasAux fuel rest

/-- `re.sub(r",\s*([}\]])", r"\1", s)` (source lines 405 and 430): drop
    every comma that precedes (possibly whitespace and) a closing
    brace/bracket, together with that whitespace. -/
def strip_trailing_commas (s : Chars) : Chars := dropCommasAux s.length s

/-- Worker for `balance_brackets` (fuel-indexed; each iteration drops the
    last character, so fuel `length` never runs out). -/
def balanceAux : Nat → Chars → Chars
  | 0, s => s
  | fuel + 1, s =>
    match s.getLast? with
    | none => s
    | some c =>
      if c == ')' || c == ']' || c == '}' then
        if s.count ')' > s.count '(' && c == ')' then balanceAux fuel s.dropLast
        else if s.count ']' > s.count '[' && c == ']' then balanceAux fuel s.dropLast
        else if s.count '}' > s.count '{' && c == '}' then balanceAux fuel s.dropLast
        else s
      else s

/-- The bracket-balancing loop (source lines 407-427): while the last
    character is a closer whose kind has more closers than openers in the
    whole string — checking paren, then bracket, then brace — drop it. -/
def balance_brackets (s : Chars) : Chars := balanceAux s.length s

/-- Strict parse with the repair pass on failure (source lines 396-432):
    strip trailing commas, balance trailing closers, strip trailing commas
    again, re-parse. -/
def parse_with_repair (t : Chars) : Option Json :=
  match json_loads t with
  | some j => some j
  | none =>
    json_loads (strip_trailing_commas (balance_brackets (strip_trailing_commas t)))

/-- Outcome of parsing one model response (source lines 379-438 narrowed to
    the parse): cleaned and (if needed) repaired text yields an object, a
    non-object value (whose `.get` access then raises `AttributeError` at
    line 441), or nothing. -/
inductive ParseOutcome where
  | object (members : List (Chars × Json))
  | nonObject (j : Json)
  | failed

/-- Response cleaning (source lines 380-393): strip, remove a markdown
    fence, slice to the outermost braces. -/
def clean_response (raw : Chars) : Chars :=
  sliceToBraces (stripCodeFence (pyStrip raw))

/-- Clean, then parse with repair, classifying the outcome. -/
def parse_response (raw : Chars) : ParseOutcome :=
  match parse_with_repair (clean_response raw) with
  | some (Json.obj ms) => .object ms
  | some j => .nonObject j
  | none => .failed

/-- The `AIAnalysisResult(...)` construction site (source lines 440-462):
    every field is read from the parsed object with its typed default. -/
def buildResult (ms : List (Chars × Json)) : AIAnalysisResult where
  skills := dictGet ms (chars "skills")
    (Json.obj [(chars "technical", Json.arr []), (chars "soft", Json.arr [])])
  experience_level := dictGet ms (chars "experience_level") (Json.str (chars "Entry"))
  focus_areas := dictGet ms (chars "focus_areas") (Json.arr [])
  insights := dictGet ms (chars "overall_insights") (Json.str [])
  recommendations := dictGet ms (chars "detailed_recommendations") (Json.arr [])
  experience_analysis := dictGet ms (chars "experience_analysis") (Json.obj [])
  project_analysis := dictGet ms (chars "project_analysis") (Json.obj [])
  education_analysis := dictGet ms (chars "education_analysis") (Json.obj [])
  resume_quality := dictGet ms (chars "resume_quality") (Json.obj [])
  skill_gap_analysis := dictGet ms (chars "skill_gap_analysis") (Json.obj [])
  market_competitiveness := dictGet ms (chars "market_competitiveness") (Json.obj [])
  industry_alignment := dictGet ms (chars "industry_alignment") (Json.obj [])
  detailed_recommendations := dictGet ms (chars "detailed_recommendations") (Json.arr [])
  ats_optimization := dictGet ms (chars "ats_optimization") (Json.obj [])
  interview_preparation := dictGet ms (chars "interview_preparation") (Json.obj [])
  career_trajectory := dictGet ms (chars "career_trajectory") (Json.obj [])
  red_flags := dictGet ms (chars "red_flags") (Json.arr [])
  standout_qualities := dictGet ms (chars "standout_qualities") (Json.arr [])
  overall_insights := dictGet ms (chars "overall_insights") (Json.str [])

/-- Acceptable for a `Dict[str, Any]` field: a JSON object (its keys are
    strings by construction, its values are `Any`). -/
def isJsonObj : Json → Bool
  | .obj _ => true
  | _ => false

/-- Acceptable for a `str` field: a JSON string (see the header note on the
    numeric coercions pydantic v1 would add). -/
def isJsonStr : Json → Bool
  | .str _ => true
  | _ => false

/-- Acceptable for a `List[str]` field: an array of strings. -/
def isStrArray : Json → Bool
  | .arr xs => xs.all isJsonStr
  | _ => false

/-- Acceptable for a `List[Dict[str, Any]]` field: an array of objects. -/
def isObjArray : Json → Bool
  | .arr xs => xs.all isJsonObj
  | _ => false

/-- An `Optional[...]` field additionally admits `null` (`None`). -/
def isOptional (p : Json → Bool) : Json → Bool
  | .null => true
  | j => p j

/-- Pydantic validation of the `AIAnalysisResult(...)` construction at
    source lines 440-462 against the field types declared at lines 121-142:
    each keyword argument — the `dict.get` of its key, so the typed default
    when the key is absent — must fit its declared type, else the
    constructor raises `ValidationError` (caught by the orchestrator's
    generic handler at line 469).  The checks appear in the constructor's
    argument order; note `insights`/`overall_insights` both read the
    `overall_insights` key and `recommendations`/`detailed_recommendations`
    both read the `detailed_recommendations` key, so the required fields'
    checks constrain those shared values. -/
def validAnalysisData (ms : List (Chars × Json)) : Bool :=
  isJsonObj (dictGet ms (chars "skills")
    (Json.obj [(chars "technical", Json.arr []), (chars "soft", Json.arr [])])) &&
  isJsonStr (dictGet ms (chars "experience_level") (Json.str (chars "Entry"))) &&
  isStrArray (dictGet ms (chars "focus_areas") (Json.arr [])) &&
  isJsonStr (dictGet ms (chars "overall_insights") (Json.str [])) &&
  isObjArray (dictGet ms (chars "detailed_recommendations") (Json.arr [])) &&
  isOptional isJsonObj (dictGet ms (chars "experience_analysis") (Json.obj [])) &&
  isOptional isJsonObj (dictGet ms (chars "project_analysis") (Json.obj [])) &&
  isOptional isJsonObj (dictGet ms (chars "education_analysis") (Json.obj [])) &&
  isOptional isJsonObj (dictGet ms (chars "resume_quality") (Json.obj [])) &&
  isOptional isJsonObj (dictGet ms (chars "skill_gap_analysis") (Json.obj [])) &&
  isOptional isJsonObj (dictGet ms (chars "market_competitiveness") (Json.obj [])) &&
  isOptional isJsonObj (dictGet ms (chars "industry_alignment") (Json.obj [])) &&
  isOptional isObjArray (dictGet ms (chars "detailed_recommendations") (Json.arr [])) &&
  isOptional isJsonObj (dictGet ms (chars "ats_optimization") (Json.obj [])) &&
  isOptional isJsonObj (dictGet ms (chars "interview_preparation") (Json.obj [])) &&
  isOptional isJsonObj (dictGet ms (chars "career_trajectory") (Json.obj [])) &&
  isOptional isStrArray (dictGet ms (chars "red_flags") (Json.arr [])) &&
  isOptional isStrArray (dictGet ms (chars "standout_qualities") (Json.arr [])) &&
  isOptional isJsonStr (dictGet ms (chars "overall_insights") (Json.str []))

/-- The sanitizer of spec §4.3 as the code realizes it: clean/parse/repair,
    then reconcile and validate; a non-object parse is an `AttributeError`
    and an ill-typed object a `ValidationError`, so no report either way. -/
def sanitize (raw : Chars) : Option AIAnalysisResult :=
  match parse_response raw with
  | .object ms => if validAnalysisData ms then some (buildResult ms) else none
  | _ => none

/-- `AIAnalysisService.create_fallback_analysis` (source lines 475-520). -/
def create_fallback_analysis (extracted_text : Chars) : AIAnalysisResult :=
  let words := pySplit (pyLower extracted_text)
  let technical_skills :=
    (([chars "python", chars "javascript", chars "react", chars "node",
       chars "sql", chars "aws", chars "docker", chars "git"]).filter
      (fun skill => words.contains skill)).map pyTitle
  let experience_level :=
    if [chars "senior", chars "lead", chars "manager", chars "architect"].any
        (fun w => words.contains w) then chars "Senior"
    else if [chars "mid", chars "intermediate", chars "3", chars "4", chars "5"].any
        (fun w => words.contains w) then chars "Mid"
    else chars "Entry"
  { skills := Json.obj
      [(chars "technical", Json.arr (technical_skills.map Json.str)),
       (chars "soft", Json.arr [Json.str (chars "Communication"),
                                Json.str (chars "Problem Solving")])]
    experience_level := Json.str experience_level
    focus_areas := Json.arr [Json.str (chars "Software Development")]
    insights := Json.str (chars "Basic analysis completed. For detailed insights, please ensure AI service is properly configured.")
    recommendations := Json.arr [Json.obj
      [(chars "category", Json.str (chars "Profile")),
       (chars "suggestion", Json.str (chars "Add more specific technical skills and project details")),
       (chars "priority", Json.str (chars "Medium"))]]
    experience_analysis := Json.obj
      [(chars "level", Json.str experience_level),
       (chars "total_experience_years", Json.str (chars "0 years"))]
    project_analysis := Json.obj [(chars "project_quality", Json.str (chars "Average"))]
    education_analysis := Json.obj [(chars "degree_relevance", Json.str (chars "Unknown"))]
    resume_quality := Json.obj [(chars "overall_score", Json.str (chars "5/10"))]
    skill_gap_analysis := Json.obj
      [(chars "for_current_level", Json.arr [Json.str (chars "More specific skills needed")])]
    market_competitiveness := Json.obj [(chars "overall_rating", Json.str (chars "Moderate"))]
    industry_alignment := Json.obj
      [(chars "best_fit_roles", Json.arr [Json.str (chars "Software Developer")])]
    detailed_recommendations := Json.arr []
    ats_optimization := Json.obj [(chars "current_ats_score", Json.str (chars "50/100"))]
    interview_preparation := Json.obj [(chars "technical_readiness", Json.str (chars "Moderate"))]
    career_trajectory := Json.obj [(chars "next_logical_step", Json.str (chars "Continue learning"))]
    red_flags := Json.arr []
    standout_qualities := Json.arr []
    overall_insights := Json.str (chars "Basic analysis completed.") }

/-! ## The orchestrator (`AIAnalysisService.analyze_resume`) -/

/-- One completion call's outcome: `asyncio.TimeoutError`, any other
    provider/transport exception, or returned text. -/
inductive ClientResp where
  | timeout
  | failure
  | ok (text : Chars)

/-- Observable steps of the retry loop: a backoff suspension (seconds) or a
    completion call with the prompt it was given. -/
inductive Event where
  | sleep (seconds : Nat)
  | complete (prompt : Chars)

/-- `max_retries` (source line 360). -/
def max_retries : Nat := 3

/-- The text passed to prompt construction on a given attempt (source
    lines 367-369): the front `max(500, 2000 - attempt*500)` characters. -/
def attemptText (extracted_text : Chars) (attempt : Nat) : Chars :=
  let text_length := max 500 (2000 - attempt * 500)
  if text_length < extracted_text.length then extracted_text.take text_length
  else extracted_text

/-- The retry loop of `analyze_resume` (source lines 361-473), unrolled over
    the remaining iteration count (`remaining = max_retries - attempt`); the
    base case is the post-loop fallback return at line 473.  Produces the
    result together with the trace of suspensions and completion calls. -/
def analyzeFrom (client : Nat → ClientResp) (extracted_text : Chars) :
    Nat → Nat → AIAnalysisResult × List Event
  | _, 0 => (create_fallback_analysis extracted_text, [])
  | attempt, remaining + 1 =>
    let backoff : List Event :=
      if 0 < attempt then [.sleep (min 10 (2 ^ attempt))] else []
    let prompt := create_analysis_prompt (attemptText extracted_text attempt)
    let ev := backoff ++ [Event.complete prompt]
    let failStep : AIAnalysisResult × List Event :=
      if attempt == max_retries - 1 then (create_fallback_analysis extracted_text, ev)
      else
        let next := analyzeFrom client extracted_text (attempt + 1) remaining
        (next.1, ev ++ next.2)
    match client attempt with
    | .timeout => failStep
    | .failure => failStep
    | .ok raw =>
      match parse_response raw with
      | .object ms =>
        if validAnalysisData ms then (buildResult ms, ev) else failStep
      | .nonObject _ => failStep
      | .failed => failStep

/-- `AIAnalysisService.analyze_resume` (source lines 355-473).  `client`
    abstracts the configured model: `none` is the missing-credentials path
    (line 357), otherwise `client i` is the completion behaviour on
    attempt `i`. -/
def analyze_resume (client : Option (Nat → ClientResp)) (extracted_text : Chars) :
    AIAnalysisResult × List Event :=
  match client with
  | none => (create_fallback_analysis extracted_text, [])
  | some c => analyzeFrom c extracted_text 0 max_retries

/-! ## The OCR service (`OCRService`) and the background job -/

/-- An HTTP-error escape (`fastapi.HTTPException`). -/
structure HTTPError where
  status_code : Nat
  detail : Chars

/-- Observable side effects of `process_file`. -/
inductive FetchEvent where
  | fetch (url : Chars)
deriving DecidableEq

abbrev Bytes := List Nat

/-- The transport's answer to the one download `process_file` performs. -/
structure FetchResponse where
  status : Nat
  content : Bytes

/-- `OCRService.process_file` (source lines 197-220): download the file,
    then dispatch on the declared MIME type.  `pdfExtract`/`imgExtract`
    abstract the PyPDF2 and pytesseract extraction paths (source lines
    152-195), which either return text and confidence or raise (the
    wrapped HTTP 500 of lines 170 and 195). -/
def process_file (response : FetchResponse)
    (pdfExtract imgExtract : Bytes → Except Chars (Chars × Nat))
    (file_url mime_type : Chars) :
    List FetchEvent × Except HTTPError (Chars × Nat) :=
  let events := [FetchEvent.fetch file_url]
  if response.status ≠ 200 then
    (events, .error ⟨400, chars "Failed to download file"⟩)
  else if mime_type == chars "application/pdf" then
    match pdfExtract response.content with
    | .ok r => (events, .ok r)
    | .error e => (events, .error ⟨500, chars "PDF text extraction failed: " ++ e⟩)
  else if mime_type == chars "image/jpeg" || mime_type == chars "image/jpg"
      || mime_type == chars "image/png" then
    match imgExtract response.content with
    | .ok r => (events, .ok r)
    | .error e => (events, .error ⟨500, chars "Image text extraction failed: " ++ e⟩)
  else
    (events, .error ⟨400, chars "Unsupported file type: " ++ mime_type⟩)

/-- Persistence actions the background job attempts (source lines 560-662;
    both Supabase writers swallow their own errors, so attempting them
    never raises). -/
inductive JobEvent where
  | status_update (status : Chars) (error : Option Chars)
  | save_results (extracted_text : Chars) (confidence : Nat)
      (analysis : AIAnalysisResult)

/-- `process_resume_background` (source lines 522-558): mark processing,
    extract, analyze, save, mark completed; any exception from the stages
    instead marks the job failed with a readable message.  `extraction`
    abstracts the `OCRService.process_file` call's outcome (its error
    carries `str(e)`), `client` the completion model as in
    `analyze_resume`. -/
def process_resume_background (extraction : Except Chars (Chars × Nat))
    (client : Option (Nat → ClientResp)) : List JobEvent :=
  match extraction with
  | .error e =>
      [.status_update (chars "processing") none,
       .status_update (chars "failed") (some (chars "Resume processing failed: " ++ e))]
  | .ok (extracted_text, confidence) =>
      [.status_update (chars "processing") none,
       .save_results extracted_text confidence (analyze_resume client extracted_text).1,
       .status_update (chars "completed") none]

instance : Inhabited Json := ⟨Json.null⟩

/-! ## Definitions used by the claim statements -/

/-- The canonical section-key set of spec §3: the fixed sections every
    `AnalysisReport` carries. -/
def canonicalSectionKeys : List Chars :=
  [chars "skills", chars "experience_analysis", chars "project_analysis",
   chars "education_analysis", chars "resume_quality", chars "skill_gap_analysis",
   chars "market_competitiveness", chars "industry_alignment",
   chars "detailed_recommendations", chars "ats_optimization",
   chars "interview_preparation", chars "career_trajectory", chars "red_flags",
   chars "standout_qualities", chars "overall_insights"]

/-- The top-level keys of the JSON object the prompt template demands
    (source lines 240-351).  Note `experience_level` is not among them: the
    schema places the level at `experience_analysis.level` (line 255). -/
def promptTopLevelKeys : List Chars := canonicalSectionKeys

/-- The canonical sections of a reconciled report, as a keyed list in the
    canonical order. -/
def canonicalSections (r : AIAnalysisResult) : List (Chars × Json) :=
  [(chars "skills", r.skills),
   (chars "experience_analysis", r.experience_analysis),
   (chars "project_analysis", r.project_analysis),
   (chars "education_analysis", r.education_analysis),
   (chars "resume_quality", r.resume_quality),
   (chars "skill_gap_analysis", r.skill_gap_analysis),
   (chars "market_competitiveness", r.market_competitiveness),
   (chars "industry_alignment", r.industry_alignment),
   (chars "detailed_recommendations", r.detailed_recommendations),
   (chars "ats_optimization", r.ats_optimization),
   (chars "interview_preparation", r.interview_preparation),
   (chars "career_trajectory", r.career_trajectory),
   (chars "red_flags", r.red_flags),
   (chars "standout_qualities", r.standout_qualities),
   (chars "overall_insights", r.overall_insights)]

/-- The per-section default the reconciliation actually substitutes for an
    absent key: `{}` for mapping sections and `[]`/`""` for list/string
    sections — except `skills`, whose default is the seeded mapping
    `{"technical": [], "soft": []}` (source line 441). -/
def sectionDefault (k : Chars) : Json :=
  if k == chars "skills" then
    Json.obj [(chars "technical", Json.arr []), (chars "soft", Json.arr [])]
  else if k == chars "detailed_recommendations" || k == chars "red_flags"
      || k == chars "standout_qualities" then Json.arr []
  else if k == chars "overall_insights" then Json.str []
  else Json.obj []

/-- The events one retry-loop attempt emits before its outcome is known:
    the backoff suspension (for attempts after the first) and the
    completion call (source lines 363-377). -/
def attemptEv (extracted_text : Chars) (attempt : Nat) : List Event :=
  (if 0 < attempt then [Event.sleep (min 10 (2 ^ attempt))] else []) ++
  [Event.complete (create_analysis_prompt (attemptText extracted_text attempt))]

/-- Whether one attempt of the loop survives the reconciliation site: the
    completion returned text whose cleaned/repaired parse is an object that
    the report constructor's field validation accepts. -/
def attemptOutcome (client : Nat → ClientResp) (i : Nat) :
    Option (List (Chars × Json)) :=
  match client i with
  | .ok raw =>
    match parse_response raw with
    | .object ms => if validAnalysisData ms then some ms else none
    | _ => none
  | _ => none

/-- The parsed object of the first of the three attempts that survives
    reconciliation and validation, if any. -/
def firstValidAttempt (client : Nat → ClientResp) :
    Option (List (Chars × Json)) :=
  match attemptOutcome client 0 with
  | some ms => some ms
  | none =>
    match attemptOutcome client 1 with
    | some ms => some ms
    | none => attemptOutcome client 2

/-- Count of completion calls in a trace. -/
def completions (tr : List Event) : Nat :=
  tr.countP fun e => match e with | .complete _ => true | _ => false

/-- The extracted text of the end-to-end scenario in spec §8. -/
def resumeText : Chars := chars "Senior Python Engineer, 5 years, AWS, Docker"

/-- An always-failing completion client. -/
def failingClient : Nat → ClientResp := fun _ => .failure

/-- A report-shaped object with every canonical key, each value of the type
    the report model declares for its section (so the construction
    validates): `{}` for the mapping sections, `[]` for the list sections,
    a plain string for `overall_insights`. -/
def plainObject : List (Chars × Json) :=
  [(chars "skills", Json.obj []),
   (chars "experience_analysis", Json.obj []),
   (chars "project_analysis", Json.obj []),
   (chars "education_analysis", Json.obj []),
   (chars "resume_quality", Json.obj []),
   (chars "skill_gap_analysis", Json.obj []),
   (chars "market_competitiveness", Json.obj []),
   (chars "industry_alignment", Json.obj []),
   (chars "detailed_recommendations", Json.arr []),
   (chars "ats_optimization", Json.obj []),
   (chars "interview_preparation", Json.obj []),
   (chars "career_trajectory", Json.obj []),
   (chars "red_flags", Json.arr []),
   (chars "standout_qualities", Json.arr []),
   (chars "overall_insights", Json.str (chars "ok"))]

/-- Like `plainObject` — every canonical key, every section value of its
    declared type — except that the `overall_insights` string contains a
    markdown fence marker: legal JSON that validates, but the sanitizer's
    fence slicing fires on its serialization. -/
def fenceObject : List (Chars × Json) :=
  plainObject.dropLast ++
  [(chars "overall_insights", Json.str (chars "```json x ```"))]

/-- An object following exactly the prompted schema's top-level keys. -/
def promptedObject : List (Chars × Json) :=
  promptTopLevelKeys.map (fun k => (k, Json.str (chars "v")))

/-- A remainder that cannot extend a decimal digit run: empty or headed by a
    non-digit. -/
def digitFree : Chars → Bool
  | [] => true
  | c :: _ => (digitVal c).isNone

/-- A remainder that cannot extend a serialized number at all: empty or
    headed by a character that is neither a digit nor `.`/`e`/`E`.  Every
    separator a serialized value is followed by (`,`, `]`, `}`, space, end
    of input) qualifies. -/
def intSafe : Chars → Bool
  | [] => true
  | c :: _ =>
    (digitVal c).isNone && !(c == '.') && !(c == 'e') && !(c == 'E')

/-! ## Helper lemmas -/

theorem lookup_none_of_key_absent : ∀ (ms : List (Chars × Json)) (k : Chars),
    k ∉ ms.map Prod.fst → ms.lookup k = none
  | [], _, _ => rfl
  | (a, b) :: t, k, h => by
    simp only [List.map_cons, List.mem_cons, not_or] at h
    have hk : (k == a) = false := beq_eq_false_iff_ne.mpr h.1
    simp [List.lookup, hk, lookup_none_of_key_absent t k h.2]

theorem analyzeFrom_succ (client : Nat → ClientResp) (text : Chars)
    (attempt r : Nat) :
    analyzeFrom client text attempt (r + 1) =
      match attemptOutcome client attempt with
      | some ms => (buildResult ms, attemptEv text attempt)
      | none =>
        if attempt == max_retries - 1 then
          (create_fallback_analysis text, attemptEv text attempt)
        else
          ((analyzeFrom client text (attempt + 1) r).1,
           attemptEv text attempt ++ (analyzeFrom client text (attempt + 1) r).2) := by
  cases h : client attempt with
  | timeout => simp [analyzeFrom, attemptOutcome, h, attemptEv]
  | failure => simp [analyzeFrom, attemptOutcome, h, attemptEv]
  | ok raw =>
    cases h2 : parse_response raw with
    | object ms =>
      cases h3 : validAnalysisData ms with
      | true => simp [analyzeFrom, attemptOutcome, h, h2, h3, attemptEv]
      | false => simp [analyzeFrom, attemptOutcome, h, h2, h3, attemptEv]
    | nonObject j => simp [analyzeFrom, attemptOutcome, h, h2, attemptEv]
    | failed => simp [analyzeFrom, attemptOutcome, h, h2, attemptEv]

theorem analyzeFrom_0_3 (client : Nat → ClientResp) (text : Chars) :
    analyzeFrom client text 0 3 =
      match attemptOutcome client 0 with
      | some ms => (buildResult ms, attemptEv text 0)
      | none =>
        match attemptOutcome client 1 with
        | some ms => (buildResult ms, attemptEv text 0 ++ attemptEv text 1)
        | none =>
          match attemptOutcome client 2 with
          | some ms =>
            (buildResult ms, attemptEv text 0 ++ (attemptEv text 1 ++ attemptEv text 2))
          | none =>
            (create_fallback_analysis text,
             attemptEv text 0 ++ (attemptEv text 1 ++ attemptEv text 2)) := by
  rcases h0 : attemptOutcome client 0 with _ | ms0 <;>
    rcases h1 : attemptOutcome client 1 with _ | ms1 <;>
      rcases h2 : attemptOutcome client 2 with _ | ms2 <;>
        simp [analyzeFrom_succ, h0, h1, h2, max_retries]

/-! ## Claim theorems -/

/-- C1 counterexample: a client that always answers `{"skills": 5}` refutes
    "an AI-derived report from the first attempt whose response parses".
    The response parses to a JSON object on every attempt, but `5` is not a
    valid `Dict[str, Any]`, so the report construction raises
    `ValidationError` (caught at line 469), every attempt fails, and the
    result is the heuristic fallback — not the reconciliation of the first
    (or any) attempt's parsed object. -/
theorem C1_counterexample :
    parse_response (chars "\x7b\"skills\": 5\x7d") =
      ParseOutcome.object [(chars "skills", Json.num 5)] ∧
    (analyze_resume (some (fun _ => ClientResp.ok (chars "\x7b\"skills\": 5\x7d"))) []).1 =
      create_fallback_analysis [] ∧
    (create_fallback_analysis []).skills ≠
      (buildResult [(chars "skills", Json.num 5)]).skills := by
  refine ⟨rfl, rfl, fun h => ?_⟩
  exact Json.noConfusion h

/-- C1 amended: for every completion-client behaviour and every extracted
    text, `analyze_resume` performs at most 3 completion attempts and
    returns a report (it is a total function, so no exception reaches the
    caller): the reconciled report of the first attempt whose response
    parses to a JSON object that passes the report constructor's field
    validation, or the heuristic fallback report when no attempt does. -/
theorem C1_orchestrator_first_valid (client : Nat → ClientResp) (text : Chars) :
    completions (analyze_resume (some client) text).2 ≤ 3 ∧
    (analyze_resume (some client) text).1 =
      (match firstValidAttempt client with
       | some ms => buildResult ms
       | none => create_fallback_analysis text) := by
  have hch := analyzeFrom_0_3 client text
  rcases h0 : attemptOutcome client 0 with _ | ms0 <;>
    rcases h1 : attemptOutcome client 1 with _ | ms1 <;>
      rcases h2 : attemptOutcome client 2 with _ | ms2 <;>
        simp only [h0, h1, h2] at hch <;>
          constructor <;>
            simp [analyze_resume, max_retries, hch, firstValidAttempt, h0, h1, h2,
              completions, attemptEv, List.countP_append, List.countP_cons]

/-- C7: the trace of `analyze_resume` is exactly the concatenation, over the
    `k ≤ 3` attempts executed, of a backoff suspension of `min(10, 2^i)`
    seconds for every attempt `i > 0` followed by a completion call whose
    prompt is built from the first `max(500, 2000 - i*500)` characters of
    the extracted text (the whole text when it is shorter). -/
theorem C7_backoff_and_text_budget (client : Nat → ClientResp) (text : Chars) :
    ∃ k, 1 ≤ k ∧ k ≤ 3 ∧
      (analyze_resume (some client) text).2 =
        ((List.range k).map (fun i =>
          (if 0 < i then [Event.sleep (min 10 (2 ^ i))] else []) ++
          [Event.complete (create_analysis_prompt
            (if max 500 (2000 - i * 500) < text.length
             then text.take (max 500 (2000 - i * 500))
             else text))])).flatten := by
  have hch := analyzeFrom_0_3 client text
  rcases h0 : attemptOutcome client 0 with _ | ms0
  · rcases h1 : attemptOutcome client 1 with _ | ms1
    · refine ⟨3, by norm_num, by norm_num, ?_⟩
      show (analyze_resume (some client) text).2 =
        ((List.range 3).map (fun i => attemptEv text i)).flatten
      rcases h2 : attemptOutcome client 2 with _ | ms2 <;>
        simp only [h0, h1, h2] at hch <;>
          simp [analyze_resume, max_retries, hch, List.range_succ]
    · refine ⟨2, by norm_num, by norm_num, ?_⟩
      show (analyze_resume (some client) text).2 =
        ((List.range 2).map (fun i => attemptEv text i)).flatten
      simp only [h0, h1] at hch
      simp [analyze_resume, max_retries, hch, List.range_succ]
  · refine ⟨1, by norm_num, by norm_num, ?_⟩
    show (analyze_resume (some client) text).2 =
      ((List.range 1).map (fun i => attemptEv text i)).flatten
    simp only [h0] at hch
    simp [analyze_resume, max_retries, hch, List.range_succ]

/-- C2: the background job marks the job `processing`, then: if extraction
    raises, it ends `failed` with a readable message and attempts no result
    write at all; if extraction succeeds, it ends `completed` for every
    completion-client behaviour, so an AI-stage failure is never visible in
    the terminal status. -/
theorem C2_job_terminal_status (extraction : Except Chars (Chars × Nat))
    (client : Option (Nat → ClientResp)) :
    (∀ e, extraction = .error e →
      (process_resume_background extraction client).getLast? =
        some (.status_update (chars "failed")
          (some (chars "Resume processing failed: " ++ e))) ∧
      ∀ t c r, JobEvent.save_results t c r ∉ process_resume_background extraction client) ∧
    (∀ t c, extraction = .ok (t, c) →
      (process_resume_background extraction client).getLast? =
        some (.status_update (chars "completed") none)) := by
  constructor
  · rintro e rfl
    exact ⟨rfl, by intro t c r hmem; simp [process_resume_background] at hmem⟩
  · rintro t c rfl
    rfl

/-- C2 witness: both hypotheses are realizable — a failing extraction ends
    `failed`, a succeeding one ends `completed`. -/
theorem C2_job_terminal_status_witness :
    (process_resume_background (.error (chars "boom")) none).getLast? =
      some (.status_update (chars "failed")
        (some (chars "Resume processing failed: " ++ chars "boom"))) ∧
    (process_resume_background (.ok (chars "hi", 1)) none).getLast? =
      some (.status_update (chars "completed") none) :=
  ⟨((C2_job_terminal_status (.error (chars "boom")) none).1 _ rfl).1,
   (C2_job_terminal_status (.ok (chars "hi", 1)) none).2 _ _ rfl⟩

/-- C3 counterexample: after reconciling an object with no keys at all, the
    `skills` section is not the empty mapping `{}` the claim's typed-default
    rule predicts for a mapping-valued section, but the seeded mapping
    `{"technical": [], "soft": []}`. -/
theorem C3_counterexample :
    List.lookup (chars "skills") (canonicalSections (buildResult [])) =
      some (Json.obj [(chars "technical", Json.arr []), (chars "soft", Json.arr [])]) ∧
    Json.obj [(chars "technical", Json.arr []), (chars "soft", Json.arr [])] ≠
      Json.obj [] :=
  ⟨rfl, fun h => by injection h with h1; exact List.cons_ne_nil _ _ h1⟩

/-- C3 amended: for every parsed object, every canonical section key is
    populated in the reconciled report — with the present value, or with the
    typed default when absent: `{}` for mapping sections, `[]` for list
    sections, `""` for the string section, except `skills`, which defaults
    to `{"technical": [], "soft": []}`. -/
theorem C3_reconciliation_defaults (ms : List (Chars × Json)) (k : Chars)
    (hk : k ∈ canonicalSectionKeys) :
    List.lookup k (canonicalSections (buildResult ms)) =
      some (dictGet ms k (sectionDefault k)) := by
  simp only [canonicalSectionKeys, chars, List.mem_cons, List.not_mem_nil, or_false] at hk
  rcases hk with rfl | rfl | rfl | rfl | rfl | rfl | rfl | rfl | rfl | rfl | rfl | rfl |
    rfl | rfl | rfl <;> rfl

/-- C3 witness: the amended statement at the empty object and the
    `experience_analysis` key. -/
theorem C3_reconciliation_defaults_witness :
    chars "experience_analysis" ∈ canonicalSectionKeys ∧
    List.lookup (chars "experience_analysis") (canonicalSections (buildResult [])) =
      some (dictGet [] (chars "experience_analysis")
        (sectionDefault (chars "experience_analysis"))) :=
  ⟨by decide, C3_reconciliation_defaults [] _ (by decide)⟩

/-- C4: on `'{"a":1,}'` with one spurious trailing `}`, the strict parse
    fails; the repair pass strips the trailing comma, the balancing loop
    drops exactly the spurious closing brace, the second comma strip is a
    no-op, and the re-parse recovers the object `{"a": 1}`. -/
theorem C4_repair_recovers :
    json_loads (chars "\x7b\"a\":1,\x7d\x7d") = none ∧
    strip_trailing_commas (chars "\x7b\"a\":1,\x7d\x7d") = chars "\x7b\"a\":1\x7d\x7d" ∧
    balance_brackets (chars "\x7b\"a\":1\x7d\x7d") = chars "\x7b\"a\":1\x7d" ∧
    strip_trailing_commas (chars "\x7b\"a\":1\x7d") = chars "\x7b\"a\":1\x7d" ∧
    json_loads (chars "\x7b\"a\":1\x7d") = some (Json.obj [(chars "a", Json.num 1)]) ∧
    parse_response (chars "\x7b\"a\":1,\x7d\x7d") = ParseOutcome.object [(chars "a", Json.num 1)] :=
  ⟨rfl, rfl, rfl, rfl, rfl, rfl⟩

/-- C5 counterexample: for the unsupported media type `text/plain` with a
    successful transport, `process_file` does fail with the unsupported-type
    error, but the network fetch of the source bytes has been performed
    before that failure — the fetch event is in the trace. -/
theorem C5_counterexample :
    (process_file ⟨200, []⟩ (fun _ => .error []) (fun _ => .error [])
        (chars "http://f") (chars "text/plain")).2 =
      .error ⟨400, chars "Unsupported file type: text/plain"⟩ ∧
    FetchEvent.fetch (chars "http://f") ∈
      (process_file ⟨200, []⟩ (fun _ => .error []) (fun _ => .error [])
        (chars "http://f") (chars "text/plain")).1 :=
  ⟨rfl, by decide⟩

/-- C5 amended: for every media type outside {pdf, jpeg, jpg, png} and a
    successful download, `process_file` fails with the UnsupportedMediaType
    error — but only after the one network fetch, which always precedes the
    type dispatch. -/
theorem C5_unsupported_after_fetch (response : FetchResponse)
    (pdfExtract imgExtract : Bytes → Except Chars (Chars × Nat))
    (file_url mime_type : Chars)
    (hok : response.status = 200)
    (hm : mime_type ∉ [chars "application/pdf", chars "image/jpeg",
                       chars "image/jpg", chars "image/png"]) :
    process_file response pdfExtract imgExtract file_url mime_type =
      ([FetchEvent.fetch file_url],
       .error ⟨400, chars "Unsupported file type: " ++ mime_type⟩) := by
  simp only [List.mem_cons, List.not_mem_nil, or_false, not_or] at hm
  obtain ⟨h1, h2, h3, h4⟩ := hm
  simp [process_file, hok, beq_eq_false_iff_ne.mpr h1, beq_eq_false_iff_ne.mpr h2,
    beq_eq_false_iff_ne.mpr h3, beq_eq_false_iff_ne.mpr h4]

/-- C5 witness: the amended statement at `text/plain` and a 200 download. -/
theorem C5_unsupported_after_fetch_witness :
    process_file ⟨200, []⟩ (fun _ => .error []) (fun _ => .error [])
        (chars "http://f") (chars "text/plain") =
      ([FetchEvent.fetch (chars "http://f")],
       .error ⟨400, chars "Unsupported file type: " ++ chars "text/plain"⟩) :=
  C5_unsupported_after_fetch ⟨200, []⟩ _ _ _ _ rfl (by decide)

/-- C6 counterexample: on the scenario text, whitespace-only tokenization
    leaves the token `"aws,"` carrying its comma, so the vocabulary test for
    `"aws"` fails: the fallback's technical-skills list is exactly
    `["Python", "Docker"]` and `"Aws"` is not in it. -/
theorem C6_counterexample :
    (create_fallback_analysis resumeText).skills =
      Json.obj [(chars "technical",
                 Json.arr [Json.str (chars "Python"), Json.str (chars "Docker")]),
                (chars "soft",
                 Json.arr [Json.str (chars "Communication"),
                           Json.str (chars "Problem Solving")])] ∧
    Json.str (chars "Aws") ∉
      [Json.str (chars "Python"), Json.str (chars "Docker")] := by
  refine ⟨rfl, ?_⟩
  intro hmem
  simp only [List.mem_cons, List.not_mem_nil, or_false] at hmem
  rcases hmem with h | h <;> (injection h with h1; exact absurd h1 (by decide))

/-- C6 amended: with extracted text "Senior Python Engineer, 5 years, AWS,
    Docker" and an always-failing completion client, the job ends
    `completed` with the heuristic fallback report, whose technical skills
    are the title-cased `"Python"` and `"Docker"` (`"Aws"` is missed because
    the comma-attached token fails the exact membership test) and whose
    experience level is `"Senior"`. -/
theorem C6_scenario_fallback :
    process_resume_background (.ok (resumeText, 80)) (some failingClient) =
      [.status_update (chars "processing") none,
       .save_results resumeText 80 (create_fallback_analysis resumeText),
       .status_update (chars "completed") none] ∧
    (create_fallback_analysis resumeText).skills =
      Json.obj [(chars "technical",
                 Json.arr [Json.str (chars "Python"), Json.str (chars "Docker")]),
                (chars "soft",
                 Json.arr [Json.str (chars "Communication"),
                           Json.str (chars "Problem Solving")])] ∧
    (create_fallback_analysis resumeText).experience_level =
      Json.str (chars "Senior") :=
  ⟨rfl, rfl, rfl⟩

/-- C8 counterexample: on a 3001-character text, attempt 0 hands the prompt
    builder only the first 2000 characters (the orchestrator's attempt-0
    budget), so the built prompt is not the template around the first 3000
    characters that the claim predicts. -/
theorem C8_counterexample :
    attemptText (List.replicate 3001 'a') 0 = (List.replicate 3001 'a').take 2000 ∧
    create_analysis_prompt (attemptText (List.replicate 3001 'a') 0) ≠
      promptHeader ++ (((List.replicate 3001 'a').take 3000 ++
        chars "...[truncated for analysis]") ++ promptFooter) := by
  have hat : attemptText (List.replicate 3001 'a') 0 =
      (List.replicate 3001 'a').take 2000 := by
    simp only [attemptText, List.length_replicate]
    norm_num
  refine ⟨hat, ?_⟩
  intro h
  have e1 : create_analysis_prompt (attemptText (List.replicate 3001 'a') 0) =
      promptHeader ++ ((List.replicate 3001 'a').take 2000 ++ promptFooter) := by
    rw [hat]
    simp only [create_analysis_prompt, max_text_length]
    rw [if_neg (by simp only [List.length_take, List.length_replicate]; omega)]
  rw [e1] at h
  have hlen := congrArg List.length h
  have hm : (chars "...[truncated for analysis]").length = 27 := rfl
  simp only [List.length_append, List.length_take, List.length_replicate, hm] at hlen
  omega

/-- C8 amended: within `analyze_resume`, attempt 0 embeds the first 2000
    characters of the extracted text (the whole text when it is no longer
    than 2000), because the orchestrator's attempt-0 budget
    `max(500, 2000) = 2000` is applied before the prompt builder's own
    3000-character bound, which therefore never binds there; the builder's
    3000-character default truncation (with its marker) applies only to
    texts handed to it directly. -/
theorem C8_attempt0_embeds_2000 (t : Chars) :
    (2000 < t.length →
      create_analysis_prompt (attemptText t 0) =
        promptHeader ++ (t.take 2000 ++ promptFooter)) ∧
    (t.length ≤ 2000 →
      create_analysis_prompt (attemptText t 0) =
        promptHeader ++ (t ++ promptFooter)) ∧
    (3000 < t.length →
      create_analysis_prompt t =
        promptHeader ++ ((t.take 3000 ++ chars "...[truncated for analysis]") ++
          promptFooter)) := by
  refine ⟨fun h => ?_, fun h => ?_, fun h => ?_⟩
  · have hat : attemptText t 0 = t.take 2000 := by
      simp only [attemptText]
      rw [if_pos (show max 500 (2000 - 0 * 500) < t.length by omega)]
      norm_num
    rw [hat]
    simp only [create_analysis_prompt, max_text_length]
    rw [if_neg (by simp only [List.length_take]; omega)]
  · have hat : attemptText t 0 = t := by
      simp only [attemptText]
      rw [if_neg (show ¬ max 500 (2000 - 0 * 500) < t.length by omega)]
    rw [hat]
    simp only [create_analysis_prompt, max_text_length]
    rw [if_neg (by omega)]
  · simp only [create_analysis_prompt, max_text_length]
    rw [if_pos h]

/-- C8 witness: the amended statement at a 2001-character text. -/
theorem C8_attempt0_embeds_2000_witness :
    create_analysis_prompt (attemptText (List.replicate 2001 'a') 0) =
      promptHeader ++ ((List.replicate 2001 'a').take 2000 ++ promptFooter) :=
  (C8_attempt0_embeds_2000 _).1 (by rw [List.length_replicate]; omega)

/-- C10: the reconciliation reads the report's experience level from the
    top-level key `experience_level` with default `"Entry"`, but the prompt
    asks for the level only at `experience_analysis.level`; hence for every
    parsed response following exactly the prompted schema's top-level keys,
    the reconciled `experience_level` is `"Entry"` regardless of the level
    the model reported. -/
theorem C10_schema_level_defaults_to_entry (o : List (Chars × Json))
    (h : o.map Prod.fst = promptTopLevelKeys) :
    (buildResult o).experience_level = Json.str (chars "Entry") := by
  have hk : chars "experience_level" ∉ o.map Prod.fst := by
    rw [h]; decide
  show dictGet o (chars "experience_level") (Json.str (chars "Entry")) = _
  rw [dictGet, lookup_none_of_key_absent o _ hk]

/-- C10 witness: a response with exactly the prompted top-level keys. -/
theorem C10_schema_level_defaults_to_entry_witness :
    promptedObject.map Prod.fst = promptTopLevelKeys ∧
    (buildResult promptedObject).experience_level = Json.str (chars "Entry") :=
  ⟨rfl, C10_schema_level_defaults_to_entry promptedObject rfl⟩

/-! ## Round-trip: decimal digits -/

theorem digitVal_digitChar {d : Nat} (h : d < 10) : digitVal (digitChar d) = some d := by
  interval_cases d <;> decide

theorem digitChar_toNat {d : Nat} (h : d < 10) : (digitChar d).toNat = 48 + d := by
  interval_cases d <;> decide

theorem natDigitsAux_irrel : ∀ (n f f' : Nat), n < f → n < f' →
    natDigitsAux f n = natDigitsAux f' n := by
  intro n
  induction n using Nat.strong_induction_on with
  | _ n ih =>
    intro f f' hf hf'
    match f, f' with
    | f + 1, f' + 1 =>
      simp only [natDigitsAux]
      by_cases h : n < 10
      · simp [h]
      · have hdiv : n / 10 < n := Nat.div_lt_self (by omega) (by omega)
        simp only [if_neg h]
        rw [ih (n / 10) hdiv f f' (by omega) (by omega)]

theorem natDigits_unfold (n : Nat) :
    natDigits n = if n < 10 then [digitChar n]
                  else natDigits (n / 10) ++ [digitChar (n % 10)] := by
  by_cases h : n < 10
  · simp [natDigits, natDigitsAux, h]
  · have hdiv : n / 10 < n := Nat.div_lt_self (by omega) (by omega)
    have h1 : natDigits n = natDigitsAux n (n / 10) ++ [digitChar (n % 10)] := by
      show natDigitsAux (n + 1) n = _
      simp [natDigitsAux, h]
    rw [h1, if_neg h, natDigitsAux_irrel (n / 10) n (n / 10 + 1) hdiv (by omega)]
    rfl

theorem natDigits_ne_nil (n : Nat) : natDigits n ≠ [] := by
  rw [natDigits_unfold]
  by_cases h : n < 10 <;> simp [h]

theorem natDigits_all_digits (n : Nat) : ∀ c ∈ natDigits n, (digitVal c).isSome := by
  induction n using Nat.strong_induction_on with
  | _ n ih =>
    rw [natDigits_unfold]
    by_cases h : n < 10
    · simp only [if_pos h, List.mem_singleton]
      rintro c rfl
      simp [digitVal_digitChar h]
    · simp only [if_neg h, List.mem_append, List.mem_singleton]
      rintro c (hc | rfl)
      · exact ih (n / 10) (Nat.div_lt_self (by omega) (by omega)) c hc
      · simp [digitVal_digitChar (Nat.mod_lt _ (by omega))]

theorem natDigits_vals (n : Nat) :
    (natDigits n).foldl (fun x c => x * 10 + (c.toNat - 48)) 0 = n := by
  induction n using Nat.strong_induction_on with
  | _ n ih =>
    rw [natDigits_unfold]
    by_cases h : n < 10
    · simp [if_pos h, digitChar_toNat h]
    · have hdiv : n / 10 < n := Nat.div_lt_self (by omega) (by omega)
      simp only [if_neg h, List.foldl_append, List.foldl_cons, List.foldl_nil]
      rw [ih (n / 10) hdiv, digitChar_toNat (Nat.mod_lt _ (by omega))]
      omega

theorem natDigits_head_pos {n : Nat} (h : 1 ≤ n) :
    ∃ d t, natDigits n = digitChar d :: t ∧ 1 ≤ d ∧ d < 10 := by
  induction n using Nat.strong_induction_on with
  | _ n ih =>
    rw [natDigits_unfold]
    by_cases h10 : n < 10
    · exact ⟨n, [], by simp [h10], h, h10⟩
    · have hdiv : n / 10 < n := Nat.div_lt_self (by omega) (by omega)
      obtain ⟨d, t, ht, hd1, hd9⟩ := ih (n / 10) hdiv (by omega)
      exact ⟨d, t ++ [digitChar (n % 10)], by simp [h10, ht], hd1, hd9⟩

theorem natDigits_head (m : Nat) :
    ∃ d t, natDigits m = digitChar d :: t ∧ d < 10 := by
  by_cases h : 1 ≤ m
  · obtain ⟨d, t, ht, _, hd⟩ := natDigits_head_pos h
    exact ⟨d, t, ht, hd⟩
  · refine ⟨0, [], ?_, by omega⟩
    rw [show m = 0 by omega, natDigits_unfold]
    simp

theorem grabDigits_stop {rest : Chars} (h : digitFree rest = true) :
    grabDigits rest = ([], rest) := by
  match rest with
  | [] => rfl
  | c :: t =>
    simp only [digitFree, Option.isNone_iff_eq_none] at h
    simp [grabDigits, h]

theorem grabDigits_run : ∀ (ds : Chars), (∀ c ∈ ds, (digitVal c).isSome) →
    ∀ rest : Chars, digitFree rest = true →
    grabDigits (ds ++ rest) = (ds.map (fun c => c.toNat - 48), rest) := by
  intro ds
  induction ds with
  | nil => intro _ rest h; simpa using grabDigits_stop h
  | cons c t iht =>
    intro hall rest hrest
    have hc := hall c (by simp)
    have hval : digitVal c = some (c.toNat - 48) := by
      rw [digitVal] at hc ⊢
      by_cases hb : ('0' ≤ c && c ≤ '9') = true
      · simp [hb]
      · simp [hb] at hc
    simp [grabDigits, hval, iht (fun x hx => hall x (by simp [hx])) rest hrest]

theorem parseUInt_natDigits (n : Nat) (rest : Chars) (hrest : digitFree rest = true) :
    parseUInt (natDigits n ++ rest) = some (n, rest) := by
  by_cases h0 : n = 0
  · subst h0
    have : natDigits 0 = [digitChar 0] := by rw [natDigits_unfold]; simp
    rw [this]
    simp [parseUInt, digitVal_digitChar (by omega : (0:Nat) < 10)]
  · obtain ⟨d, t, ht, hd1, hd9⟩ := natDigits_head_pos (by omega : 1 ≤ n)
    have halld : ∀ c ∈ t, (digitVal c).isSome := by
      intro c hc
      exact natDigits_all_digits n c (by rw [ht]; simp [hc])
    have hgrab := grabDigits_run t halld rest hrest
    rw [ht]
    simp only [List.cons_append, parseUInt, digitVal_digitChar hd9, if_neg (by omega : ¬ d = 0),
      hgrab]
    have hfold : (t.map (fun c => c.toNat - 48)).foldl (fun x k => x * 10 + k) d = n := by
      have := natDigits_vals n
      rw [ht] at this
      simpa [List.foldl_map, digitChar_toNat hd9] using this
    simp [hfold]

theorem natDigits_foldVal (n : Nat) :
    ((natDigits n).map (fun c => c.toNat - 48)).foldl (fun x k => x * 10 + k) 0 = n := by
  simpa [List.foldl_map] using natDigits_vals n

theorem parseDigitsRun_natDigits (n : Nat) (rest : Chars)
    (hrest : digitFree rest = true) :
    parseDigitsRun (natDigits n ++ rest) = some (n, rest) := by
  have hgrab := grabDigits_run (natDigits n) (natDigits_all_digits n) rest hrest
  obtain ⟨d, ds, hd⟩ := List.exists_cons_of_ne_nil
    (show (natDigits n).map (fun c => c.toNat - 48) ≠ [] by
      simp [natDigits_ne_nil n])
  rw [parseDigitsRun, hgrab, hd]
  have hfold := natDigits_foldVal n
  rw [hd] at hfold
  simp [hfold]

theorem digitChar_not_sign {d : Nat} (h : d < 10) :
    ((digitChar d == '+') = false) ∧ ((digitChar d == '-') = false) := by
  interval_cases d <;> decide

theorem parseExpPart_intChars (e : Int) (rest : Chars)
    (hrest : digitFree rest = true) :
    parseExpPart (intChars e ++ rest) = some (e, rest) := by
  by_cases hm : e < 0
  · have hser : intChars e ++ rest = '-' :: (natDigits e.natAbs ++ rest) := by
      simp [intChars, hm]
    rw [hser]
    show (parseDigitsRun (natDigits e.natAbs ++ rest)).map
      (fun p => (-(p.1 : Int), p.2)) = some (e, rest)
    rw [parseDigitsRun_natDigits e.natAbs rest hrest]
    simp only [Option.map_some', Option.some.injEq, Prod.mk.injEq, and_true]
    omega
  · have hser : intChars e = natDigits e.toNat := by
      simp [intChars, hm]
    obtain ⟨d, t, ht, hd⟩ := natDigits_head e.toNat
    obtain ⟨hp, hn⟩ := digitChar_not_sign hd
    rw [hser, ht, List.cons_append]
    simp only [parseExpPart, hp, hn, Bool.false_eq_true, if_false]
    rw [← List.cons_append, ← ht, parseDigitsRun_natDigits e.toNat rest hrest]
    simp only [Option.map_some', Option.some.injEq, Prod.mk.injEq, and_true]
    omega

theorem intSafe_head {c : Char} {t : Chars} (h : intSafe (c :: t) = true) :
    (digitVal c).isNone = true ∧ (c == '.') = false ∧
    (c == 'e') = false ∧ (c == 'E') = false := by
  have h' : ((digitVal c).isNone && !(c == '.') && !(c == 'e') && !(c == 'E')) = true := h
  simp only [Bool.and_eq_true, Bool.not_eq_true'] at h'
  exact ⟨h'.1.1.1, h'.1.1.2, h'.1.2, h'.2⟩

theorem intSafe_digitFree : ∀ {s : Chars}, intSafe s = true → digitFree s = true
  | [], _ => rfl
  | c :: t, h => by
    simp only [digitFree]
    exact (intSafe_head h).1

theorem parseNumberPos_int (n : Nat) (rest : Chars) (hrest : intSafe rest = true) :
    parseNumberPos (natDigits n ++ rest) = some (Json.num (n : Int), rest) := by
  have hu := parseUInt_natDigits n rest (intSafe_digitFree hrest)
  rw [parseNumberPos, hu]
  cases rest with
  | nil => rfl
  | cons c r2 =>
    obtain ⟨_, hdot, he, hE⟩ := intSafe_head hrest
    simp only [Option.some_bind, hdot, he, hE, Bool.false_eq_true, if_false,
      Bool.or_self]

theorem parseNumberPos_dec (mN : Nat) (e : Int) (rest : Chars)
    (hrest : intSafe rest = true) :
    parseNumberPos (natDigits mN ++ ('e' :: (intChars e ++ rest))) =
      some (Json.dec (mN : Int) e, rest) := by
  have hu := parseUInt_natDigits mN ('e' :: (intChars e ++ rest)) rfl
  rw [parseNumberPos, hu]
  simp only [Option.some_bind,
    show (('e' : Char) == '.') = false from by decide,
    show (('e' : Char) == 'e') = true from by decide,
    Bool.false_eq_true, if_false, Bool.true_or, if_true,
    parseExpPart_intChars e rest (intSafe_digitFree hrest)]

/-! ## Round-trip: strings -/

theorem hexVal_hexDigit {k : Nat} (h : k < 16) : hexVal (hexDigit k) = some k := by
  interval_cases k <;> decide

theorem strBody_twoChar {e ch : Char} (he : escChar e = some ch)
    (hu : (e == 'u') = false) (tail : Chars) :
    strBody ('\\' :: e :: tail) = (strBody tail).map (fun p => (ch :: p.1, p.2)) := by
  have bq : ('\\' == '"') = false := by decide
  have bb : ('\\' == '\\') = true := by decide
  rw [strBody.eq_def]
  simp only [bq, bb, hu, he, Bool.false_eq_true, if_false, if_true]

theorem strBody_escapeChar (c : Char) (tail : Chars) :
    strBody (escapeChar c ++ tail) = (strBody tail).map (fun p => (c :: p.1, p.2)) := by
  by_cases h1 : c = '"'
  · subst h1
    exact strBody_twoChar (by decide) (by decide) tail
  · by_cases h2 : c = '\\'
    · subst h2
      exact strBody_twoChar (by decide) (by decide) tail
    · by_cases h3 : c = '\n'
      · subst h3
        exact strBody_twoChar (by decide) (by decide) tail
      · by_cases h4 : c = '\t'
        · subst h4
          exact strBody_twoChar (by decide) (by decide) tail
        · by_cases h5 : c = '\r'
          · subst h5
            exact strBody_twoChar (by decide) (by decide) tail
          · by_cases h6 : c = '\x08'
            · subst h6
              exact strBody_twoChar (by decide) (by decide) tail
            · by_cases h7 : c = '\x0c'
              · subst h7
                exact strBody_twoChar (by decide) (by decide) tail
              · by_cases h8 : c.toNat < 32
                · have hq : c.toNat / 16 < 16 := by omega
                  have hr : c.toNat % 16 < 16 := by omega
                  have hesc : escapeChar c =
                      ['\\', 'u', '0', '0', hexDigit (c.toNat / 16), hexDigit (c.toNat % 16)] := by
                    simp [escapeChar, h1, h2, h3, h4, h5, h6, h7, h8]
                  have h0 : hexVal '0' = some 0 := rfl
                  have bq : ('\\' == '"') = false := by decide
                  have bb : ('\\' == '\\') = true := by decide
                  have bu : ('u' == 'u') = true := by decide
                  rw [hesc]
                  rw [strBody.eq_def]
                  simp only [List.cons_append, List.nil_append, List.append_eq, h0,
                    hexVal_hexDigit hq, hexVal_hexDigit hr, bq, bb, bu,
                    Bool.false_eq_true, if_false, if_true]
                  have hcode : ((0 * 16 + 0) * 16 + c.toNat / 16) * 16 + c.toNat % 16 =
                      c.toNat := by omega
                  rw [hcode, if_pos (Or.inl (by omega : c.toNat < 0xd800) :
                    (c.toNat).isValidChar), Char.ofNat_toNat]
                · have hesc : escapeChar c = [c] := by
                    simp [escapeChar, h1, h2, h3, h4, h5, h6, h7, h8]
                  have b1 : (c == '"') = false := beq_eq_false_iff_ne.mpr h1
                  have b2 : (c == '\\') = false := beq_eq_false_iff_ne.mpr h2
                  rw [hesc, List.cons_append, List.nil_append, strBody.eq_def]
                  simp only [b1, b2, Bool.false_eq_true, if_false, if_neg h8]

theorem strBody_escape (s : Chars) : ∀ rest : Chars,
    strBody (escapeString s ++ ('"' :: rest)) = some (s, rest) := by
  induction s with
  | nil =>
    intro rest
    have bq : ('"' == '"') = true := by decide
    show strBody ('"' :: rest) = some ([], rest)
    rw [strBody.eq_def]
    simp only [bq, if_true]
  | cons c t ih =>
    intro rest
    have hflat : escapeString (c :: t) = escapeChar c ++ escapeString t := by
      simp [escapeString]
    rw [hflat, List.append_assoc, strBody_escapeChar, ih]
    rfl

/-! ## Round-trip: dispatch facts -/

theorem option_some_beq {α : Type} [BEq α] (a b : α) :
    (some a == some b) = (a == b) := rfl

theorem skipWs_cons {c : Char} (hc : isJsonWs c = false) (s : Chars) :
    skipWs (c :: s) = c :: s := by
  simp [skipWs, List.dropWhile_cons, hc]

theorem skipWs_space (s : Chars) : skipWs (' ' :: s) = skipWs s := by
  simp [skipWs, List.dropWhile_cons, isJsonWs]

theorem digitChar_not_special {d : Nat} (h : d < 10) :
    isJsonWs (digitChar d) = false ∧ ((digitChar d == '{') = false ∧
    (digitChar d == '[') = false ∧ (digitChar d == '"') = false ∧
    (digitChar d == '-') = false ∧ (digitChar d == 't') = false ∧
    (digitChar d == 'f') = false ∧ (digitChar d == 'n') = false) ∧
    (digitChar d == ']') = false := by
  interval_cases d <;> decide

theorem serValue_head (v : Json) :
    ∃ c t, serValue v = c :: t ∧ isJsonWs c = false ∧ (c == ']') = false := by
  cases v with
  | null => exact ⟨'n', chars "ull", rfl, by decide, by decide⟩
  | bool b =>
    cases b with
    | true => exact ⟨'t', chars "rue", rfl, by decide, by decide⟩
    | false => exact ⟨'f', chars "alse", rfl, by decide, by decide⟩
  | str s =>
    exact ⟨'"', escapeString s ++ ['"'], by simp [serValue], by decide, by decide⟩
  | arr xs =>
    exact ⟨'[', serElems xs ++ [']'], by simp [serValue], by decide, by decide⟩
  | obj ms =>
    exact ⟨'{', serMembers ms ++ ['}'], by simp [serValue], by decide, by decide⟩
  | num n =>
    by_cases hm : n < 0
    · exact ⟨'-', natDigits n.natAbs, by simp [serValue, intChars, hm], by decide, by decide⟩
    · obtain ⟨d, t, ht, hd⟩ := natDigits_head n.toNat
      obtain ⟨hws, _, hbr⟩ := digitChar_not_special hd
      exact ⟨digitChar d, t, by simp [serValue, intChars, hm, ht], hws, hbr⟩
  | dec m e =>
    by_cases hm : m < 0
    · exact ⟨'-', natDigits m.natAbs ++ 'e' :: intChars e,
        by simp [serValue, intChars, hm], by decide, by decide⟩
    · obtain ⟨d, t, ht, hd⟩ := natDigits_head m.toNat
      obtain ⟨hws, _, hbr⟩ := digitChar_not_special hd
      exact ⟨digitChar d, t ++ 'e' :: intChars e,
        by simp [serValue, intChars, hm, ht], hws, hbr⟩

theorem skipWs_serValue (v : Json) (x : Chars) :
    skipWs (serValue v ++ x) = serValue v ++ x := by
  obtain ⟨c, t, hv, hws, _⟩ := serValue_head v
  rw [hv, List.cons_append, skipWs_cons hws]

/-! ## Round-trip: the dict fold -/

theorem dictInsert_fresh (k : Chars) (v : Json) : ∀ acc : List (Chars × Json),
    k ∉ acc.map Prod.fst → dictInsert acc k v = acc ++ [(k, v)] := by
  intro acc
  induction acc with
  | nil => intro _; rfl
  | cons p t ih =>
    intro h
    obtain ⟨a, b⟩ := p
    simp only [List.map_cons, List.mem_cons, not_or] at h
    have hne : (a == k) = false := beq_eq_false_iff_ne.mpr (fun e => h.1 e.symm)
    simp [dictInsert, hne, ih h.2]

theorem foldl_dictInsert : ∀ (ms acc : List (Chars × Json)),
    (((acc ++ ms).map Prod.fst).Nodup) →
    ms.foldl (fun a kv => dictInsert a kv.1 kv.2) acc = acc ++ ms := by
  intro ms
  induction ms with
  | nil => intro acc _; simp
  | cons p t ih =>
    intro acc h
    obtain ⟨k, v⟩ := p
    have hmap : (acc ++ (k, v) :: t).map Prod.fst =
        acc.map Prod.fst ++ k :: t.map Prod.fst := by simp
    rw [hmap] at h
    have hk : k ∉ acc.map Prod.fst := by
      rcases List.nodup_append.mp h with ⟨_, _, hdisj⟩
      intro hmem
      exact hdisj hmem (by simp)
    have step : dictInsert acc k v = acc ++ [(k, v)] := dictInsert_fresh k v acc hk
    have hrec := ih (acc ++ [(k, v)]) (by simpa using h)
    simp only [List.foldl_cons, step, hrec]
    simp

theorem mkDict_self (ms : List (Chars × Json)) (h : (ms.map Prod.fst).Nodup) :
    mkDict ms = ms := by
  simpa using foldl_dictInsert ms [] (by simpa using h)

/-! ## Round-trip: parser branch reductions (definitional at successor fuel) -/

theorem jsonVal_space : ∀ (fuel : Nat) (s : Chars),
    jsonVal fuel (' ' :: s) = jsonVal fuel s
  | 0, _ => rfl
  | _ + 1, _ => rfl

theorem jsonElems_space : ∀ (fuel : Nat) (s : Chars),
    jsonElems fuel (' ' :: s) = jsonElems fuel s
  | 0, _ => rfl
  | fuel + 1, s => by
    show (jsonVal fuel (' ' :: s)).bind _ = (jsonVal fuel s).bind _
    rw [jsonVal_space]

theorem jsonVal_strB (fuel : Nat) (r : Chars) :
    jsonVal (fuel + 1) ('"' :: r) = (strBody r).map (fun p => (Json.str p.1, p.2)) := rfl

theorem jsonVal_negB (fuel : Nat) (r : Chars) :
    jsonVal (fuel + 1) ('-' :: r) =
      (parseNumberPos r).map (fun p => (negJson p.1, p.2)) := rfl

theorem jsonVal_digitB {d : Nat} (hd : d < 10) (fuel : Nat) (r : Chars) :
    jsonVal (fuel + 1) (digitChar d :: r) = parseNumberPos (digitChar d :: r) := by
  interval_cases d <;> rfl

theorem jsonVal_arrB (fuel : Nat) (r : Chars) :
    jsonVal (fuel + 1) ('[' :: r) =
      (if (skipWs r).head? == some ']' then some (Json.arr [], (skipWs r).tail)
       else (jsonElems fuel (skipWs r)).map (fun p => (Json.arr p.1, p.2))) := rfl

theorem jsonVal_objB (fuel : Nat) (r : Chars) :
    jsonVal (fuel + 1) ('{' :: r) =
      (if (skipWs r).head? == some '}' then some (Json.obj [], (skipWs r).tail)
       else (jsonMembers fuel (skipWs r)).map
         (fun p => (Json.obj (mkDict p.1), p.2))) := rfl

theorem jsonElems_step (fuel : Nat) (s : Chars) :
    jsonElems (fuel + 1) s =
      (jsonVal fuel s).bind (fun vp =>
        if (skipWs vp.2).head? == some ',' then
          (jsonElems fuel (skipWs vp.2).tail).map (fun ep => (vp.1 :: ep.1, ep.2))
        else if (skipWs vp.2).head? == some ']' then some ([vp.1], (skipWs vp.2).tail)
        else none) := rfl

theorem jsonMembers_strB (fuel : Nat) (rest : Chars) :
    jsonMembers (fuel + 1) ('"' :: rest) =
      (strBody rest).bind (fun kp =>
        match skipWs kp.2 with
        | ':' :: r2 =>
          (jsonVal fuel r2).bind (fun vp =>
            if (skipWs vp.2).head? == some ',' then
              (jsonMembers fuel (skipWs (skipWs vp.2).tail)).map
                (fun mp => ((kp.1, vp.1) :: mp.1, mp.2))
            else if (skipWs vp.2).head? == some '}' then
              some ([(kp.1, vp.1)], (skipWs vp.2).tail)
            else none)
        | _ => none) := rfl

/-! ## Round-trip: serializer list equations -/

theorem serElems_cons (x : Json) (xs : List Json) :
    serElems (x :: xs) = serValue x ++ serElemsRest xs := by
  simp [serElems]

theorem serElemsRest_cons (y : Json) (ys : List Json) :
    serElemsRest (y :: ys) = ',' :: ' ' :: serElems (y :: ys) := by
  simp [serElemsRest, serElems]

theorem serMembers_cons (k : Chars) (v : Json) (ms : List (Chars × Json)) :
    serMembers ((k, v) :: ms) =
      '"' :: (escapeString k ++ '"' :: ':' :: ' ' :: (serValue v ++ serMembersRest ms)) := by
  simp [serMembers]

theorem serMembersRest_cons (m : Chars × Json) (t : List (Chars × Json)) :
    serMembersRest (m :: t) = ',' :: ' ' :: serMembers (m :: t) := by
  obtain ⟨k, v⟩ := m
  simp [serMembersRest, serMembers]

/-! ## Round-trip: the main mutual induction -/

mutual
theorem rt_val : ∀ (v : Json) (fuel : Nat) (rest : Chars),
    JsonWf v → (serValue v).length < fuel → intSafe rest = true →
    jsonVal fuel (serValue v ++ rest) = some (v, rest)
  | .null, fuel, rest, _, hf, _ => by
    cases fuel with
    | zero => exact absurd hf (Nat.not_lt_zero _)
    | succ f => rfl
  | .bool true, fuel, rest, _, hf, _ => by
    cases fuel with
    | zero => exact absurd hf (Nat.not_lt_zero _)
    | succ f => rfl
  | .bool false, fuel, rest, _, hf, _ => by
    cases fuel with
    | zero => exact absurd hf (Nat.not_lt_zero _)
    | succ f => rfl
  | .num n, fuel, rest, _, hf, hrest => by
    cases fuel with
    | zero => exact absurd hf (Nat.not_lt_zero _)
    | succ f =>
      by_cases hm : n < 0
      · have hser : serValue (Json.num n) = '-' :: natDigits n.natAbs := by
          simp [serValue, intChars, hm]
        rw [hser, List.cons_append, jsonVal_negB, parseNumberPos_int _ _ hrest]
        simp only [Option.map_some', negJson, Option.some.injEq, Prod.mk.injEq,
          Json.num.injEq, and_true]
        omega
      · obtain ⟨d, t, ht, hd⟩ := natDigits_head n.toNat
        have hser : serValue (Json.num n) = natDigits n.toNat := by
          simp [serValue, intChars, hm]
        rw [hser, ht, List.cons_append, jsonVal_digitB hd, ← List.cons_append, ← ht,
          parseNumberPos_int _ _ hrest]
        simp only [Option.some.injEq, Prod.mk.injEq, Json.num.injEq, and_true]
        omega
  | .dec m e, fuel, rest, _, hf, hrest => by
    cases fuel with
    | zero => exact absurd hf (Nat.not_lt_zero _)
    | succ f =>
      by_cases hm : m < 0
      · have hser : serValue (Json.dec m e) ++ rest =
            '-' :: (natDigits m.natAbs ++ ('e' :: (intChars e ++ rest))) := by
          simp [serValue, intChars, hm]
        rw [hser, jsonVal_negB, parseNumberPos_dec _ _ _ hrest]
        simp only [Option.map_some', negJson, Option.some.injEq, Prod.mk.injEq,
          Json.dec.injEq, and_true]
        omega
      · obtain ⟨d, t, ht, hd⟩ := natDigits_head m.toNat
        have hser : serValue (Json.dec m e) ++ rest =
            natDigits m.toNat ++ ('e' :: (intChars e ++ rest)) := by
          simp [serValue, intChars, hm]
        rw [hser, ht, List.cons_append, jsonVal_digitB hd, ← List.cons_append, ← ht,
          parseNumberPos_dec _ _ _ hrest]
        simp only [Option.some.injEq, Prod.mk.injEq, Json.dec.injEq, and_true]
        omega
  | .str s, fuel, rest, _, hf, _ => by
    cases fuel with
    | zero => exact absurd hf (Nat.not_lt_zero _)
    | succ f =>
      have hser : serValue (Json.str s) ++ rest =
          '"' :: (escapeString s ++ ('"' :: rest)) := by
        simp [serValue]
      rw [hser, jsonVal_strB, strBody_escape]
      rfl
  | .arr [], fuel, rest, _, hf, _ => by
    cases fuel with
    | zero => exact absurd hf (Nat.not_lt_zero _)
    | succ f => rfl
  | .arr (x :: xs), fuel, rest, hwf, hf, _ => by
    cases fuel with
    | zero => exact absurd hf (Nat.not_lt_zero _)
    | succ f =>
      have hall : ∀ y ∈ x :: xs, JsonWf y := by
        cases hwf with | arr h => exact h
      obtain ⟨c, t, hx, hws, hbr⟩ := serValue_head x
      have hform : serElems (x :: xs) ++ (']' :: rest) =
          c :: (t ++ (serElemsRest xs ++ (']' :: rest))) := by
        rw [serElems_cons, hx]
        simp
      have hser : serValue (Json.arr (x :: xs)) ++ rest =
          '[' :: (serElems (x :: xs) ++ (']' :: rest)) := by
        simp [serValue]
      have hlen : (serElems (x :: xs)).length + 1 < f := by
        have : (serValue (Json.arr (x :: xs))).length = (serElems (x :: xs)).length + 2 := by
          simp [serValue]
        omega
      rw [hser, jsonVal_arrB,
        show skipWs (serElems (x :: xs) ++ (']' :: rest)) =
          serElems (x :: xs) ++ (']' :: rest) from by rw [hform]; exact skipWs_cons hws _]
      rw [show ((serElems (x :: xs) ++ (']' :: rest)).head? == some ']') = false from by
        rw [hform]; simp only [List.head?_cons, option_some_beq, hbr]]
      rw [if_neg (by simp)]
      rw [rt_elems x xs f rest hall hlen]
      rfl
  | .obj [], fuel, rest, _, hf, _ => by
    cases fuel with
    | zero => exact absurd hf (Nat.not_lt_zero _)
    | succ f => rfl
  | .obj ((k, v) :: ms), fuel, rest, hwf, hf, _ => by
    cases fuel with
    | zero => exact absurd hf (Nat.not_lt_zero _)
    | succ f =>
      have hall : ∀ y ∈ (k, v) :: ms, JsonWf y.2 := by
        cases hwf with | obj _ h => exact h
      have hnodup : (((k, v) :: ms).map Prod.fst).Nodup := by
        cases hwf with | obj h _ => exact h
      have hform : serMembers ((k, v) :: ms) ++ ('}' :: rest) =
          '"' :: ((escapeString k ++ '"' :: ':' :: ' ' :: (serValue v ++ serMembersRest ms))
            ++ ('}' :: rest)) := by
        rw [serMembers_cons]
        simp
      have hser : serValue (Json.obj ((k, v) :: ms)) ++ rest =
          '{' :: (serMembers ((k, v) :: ms) ++ ('}' :: rest)) := by
        simp [serValue]
      have hlen : (serMembers ((k, v) :: ms)).length + 1 < f := by
        have : (serValue (Json.obj ((k, v) :: ms))).length =
            (serMembers ((k, v) :: ms)).length + 2 := by
          simp [serValue]
        omega
      rw [hser, jsonVal_objB,
        show skipWs (serMembers ((k, v) :: ms) ++ ('}' :: rest)) =
          serMembers ((k, v) :: ms) ++ ('}' :: rest) from by
            rw [hform]; exact skipWs_cons (by decide) _]
      rw [show ((serMembers ((k, v) :: ms) ++ ('}' :: rest)).head? == some '}') = false from by
        rw [hform]; simp only [List.head?_cons, option_some_beq]; decide]
      rw [if_neg (by simp)]
      rw [rt_members (k, v) ms f rest hall hlen]
      simp [mkDict_self _ hnodup]
termination_by v _ _ _ _ _ => sizeOf v

theorem rt_elems : ∀ (x : Json) (xs : List Json) (fuel : Nat) (rest : Chars),
    (∀ y ∈ x :: xs, JsonWf y) → (serElems (x :: xs)).length + 1 < fuel →
    jsonElems fuel (serElems (x :: xs) ++ (']' :: rest)) = some (x :: xs, rest)
  | x, [], fuel, rest, hwf, hf => by
    cases fuel with
    | zero => exact absurd hf (Nat.not_lt_zero _)
    | succ f =>
      have e1 : serElems [x] = serValue x := by simp [serElems, serElemsRest]
      have hlen : (serValue x).length < f := by
        rw [← e1]; omega
      rw [jsonElems_step, e1, rt_val x f (']' :: rest) (hwf x (by simp)) hlen rfl]
      rfl
  | x, y :: ys, fuel, rest, hwf, hf => by
    cases fuel with
    | zero => exact absurd hf (Nat.not_lt_zero _)
    | succ f =>
      have e1 : serElems (x :: y :: ys) ++ (']' :: rest) =
          serValue x ++ (',' :: ' ' :: (serElems (y :: ys) ++ (']' :: rest))) := by
        rw [serElems_cons, serElemsRest_cons]
        simp
      have hlens : (serElems (x :: y :: ys)).length =
          (serValue x).length + 2 + (serElems (y :: ys)).length := by
        rw [serElems_cons, serElemsRest_cons]
        simp
        omega
      have hlen1 : (serValue x).length < f := by omega
      have hlen2 : (serElems (y :: ys)).length + 1 < f := by omega
      rw [jsonElems_step, e1,
        rt_val x f (',' :: ' ' :: (serElems (y :: ys) ++ (']' :: rest)))
          (hwf x (by simp)) hlen1 rfl]
      show (jsonElems f (' ' :: (serElems (y :: ys) ++ (']' :: rest)))).map _ = _
      rw [jsonElems_space, rt_elems y ys f rest (fun z hz => hwf z (by simp [hz])) hlen2]
      rfl
termination_by x xs _ _ _ _ => sizeOf x + sizeOf xs

theorem rt_members : ∀ (kv : Chars × Json) (ms : List (Chars × Json)) (fuel : Nat)
    (rest : Chars),
    (∀ y ∈ kv :: ms, JsonWf y.2) → (serMembers (kv :: ms)).length + 1 < fuel →
    jsonMembers fuel (serMembers (kv :: ms) ++ ('}' :: rest)) = some (kv :: ms, rest)
  | (k, v), [], fuel, rest, hwf, hf => by
    cases fuel with
    | zero => exact absurd hf (Nat.not_lt_zero _)
    | succ f =>
      have e1 : serMembers [(k, v)] ++ ('}' :: rest) =
          '"' :: (escapeString k ++ ('"' :: (':' :: ' ' :: (serValue v ++ ('}' :: rest))))) := by
        rw [serMembers_cons]
        simp [serMembersRest]
      have hlen : (serValue v).length < f := by
        have : (serMembers [(k, v)]).length =
            (escapeString k).length + 4 + (serValue v).length := by
          rw [serMembers_cons]
          simp [serMembersRest]
          omega
        omega
      rw [e1, jsonMembers_strB, strBody_escape]
      show (jsonVal f (' ' :: (serValue v ++ ('}' :: rest)))).bind _ = _
      rw [jsonVal_space, rt_val v f ('}' :: rest) (hwf (k, v) (by simp)) hlen rfl]
      rfl
  | (k, v), m :: t, fuel, rest, hwf, hf => by
    cases fuel with
    | zero => exact absurd hf (Nat.not_lt_zero _)
    | succ f =>
      have e1 : serMembers ((k, v) :: m :: t) ++ ('}' :: rest) =
          '"' :: (escapeString k ++ ('"' :: (':' :: ' ' :: (serValue v ++
            (',' :: ' ' :: (serMembers (m :: t) ++ ('}' :: rest))))))) := by
        rw [serMembers_cons, serMembersRest_cons]
        simp
      have hlens : (serMembers ((k, v) :: m :: t)).length =
          (escapeString k).length + 4 + (serValue v).length + 2 +
            (serMembers (m :: t)).length := by
        rw [serMembers_cons, serMembersRest_cons]
        simp
        omega
      have hlen1 : (serValue v).length < f := by omega
      have hlen2 : (serMembers (m :: t)).length + 1 < f := by omega
      rw [e1, jsonMembers_strB, strBody_escape]
      show (jsonVal f (' ' :: (serValue v ++ (',' :: ' ' :: (serMembers (m :: t) ++
        ('}' :: rest)))))).bind _ = _
      rw [jsonVal_space,
        rt_val v f (',' :: ' ' :: (serMembers (m :: t) ++ ('}' :: rest)))
          (hwf (k, v) (by simp)) hlen1 rfl]
      show (jsonMembers f (skipWs (' ' :: (serMembers (m :: t) ++ ('}' :: rest))))).map _ = _
      rw [skipWs_space,
        show skipWs (serMembers (m :: t) ++ ('}' :: rest)) =
          serMembers (m :: t) ++ ('}' :: rest) from by
            obtain ⟨k2, v2⟩ := m
            rw [serMembers_cons]
            exact skipWs_cons (by decide) _]
      rw [rt_members m t f rest (fun z hz => hwf z (by simp [hz])) hlen2]
      rfl
termination_by kv ms _ _ _ _ => sizeOf kv + sizeOf ms
end

/-- Top-level round trip: `json.loads` inverts serialization of any
    well-formed value. -/
theorem json_loads_serValue (v : Json) (hwf : JsonWf v) :
    json_loads (serValue v) = some v := by
  have h := rt_val v ((serValue v).length + 1) [] hwf (by omega) rfl
  rw [List.append_nil] at h
  rw [json_loads, h]
  rfl

/-! ## Round-trip: response cleaning is the identity on serialized objects -/

theorem pyStrip_of_ends {c1 c2 : Char} (hc1 : isPyWs c1 = false)
    (hc2 : isPyWs c2 = false) (mid : Chars) :
    pyStrip (c1 :: (mid ++ [c2])) = c1 :: (mid ++ [c2]) := by
  have h1 : List.dropWhile isPyWs (c1 :: (mid ++ [c2])) = c1 :: (mid ++ [c2]) := by
    simp [List.dropWhile_cons, hc1]
  have h2 : (c1 :: (mid ++ [c2])).reverse = c2 :: (mid.reverse ++ [c1]) := by
    simp
  rw [pyStrip, h1, h2, List.dropWhile_cons]
  simp only [hc2, Bool.false_eq_true, if_false]
  rw [← h2, List.reverse_reverse]

theorem findSub_head {c : Char} (t : Chars) : findSub [c] (c :: t) = some 0 := by
  have : [c].isPrefixOf (c :: t) = true := by simp [List.isPrefixOf]
  simp [findSub, findSubAux, this]

theorem rfindSub_last {s : Chars} {c : Char} (h : s.getLast? = some c) :
    rfindSub [c] s = some (s.length - 1) := by
  have hne : s ≠ [] := by
    intro e
    subst e
    simp at h
  obtain ⟨n, hn⟩ : ∃ n, s.length = n + 1 :=
    ⟨s.length - 1, by have := List.length_pos.mpr hne; omega⟩
  have hsplit : s.dropLast ++ [c] = s :=
    List.dropLast_append_getLast? c (Option.mem_def.mpr h)
  have hdroplen : s.dropLast.length = n := by simp [List.length_dropLast, hn]
  have hdrop : s.drop n = [c] := by
    conv_lhs => rw [← hsplit]
    rw [← hdroplen, List.drop_left]
  have hp1 : [c].isPrefixOf (s.drop n) = true := by
    rw [hdrop]
    simp [List.isPrefixOf]
  have hpn : [c].isPrefixOf (s.drop (n + 1)) = false := by
    rw [← hn, List.drop_length]
    rfl
  rw [rfindSub, hn]
  rw [show n + 1 + 1 = (n + 1) + 1 from rfl, List.range_succ, List.range_succ]
  rw [List.filter_append, List.filter_append]
  simp only [List.filter_cons, List.filter_nil, hp1, hpn, Bool.false_eq_true, if_false,
    if_true]
  simp

theorem sliceToBraces_obj (mid : Chars) :
    sliceToBraces ('{' :: (mid ++ ['}'])) = '{' :: (mid ++ ['}']) := by
  have hlast : ('{' :: (mid ++ ['}'])).getLast? = some '}' := by
    rw [show '{' :: (mid ++ ['}']) = ('{' :: mid) ++ ['}'] from by simp]
    exact List.getLast?_concat _
  have hlen : ('{' :: (mid ++ ['}'])).length = mid.length + 2 := by simp
  rw [sliceToBraces, findSub_head, rfindSub_last hlast, hlen]
  norm_num
  rw [pySlice]
  simp only [List.drop_zero, Nat.sub_zero]
  exact List.take_of_length_le (by simp)

theorem clean_response_serObj (o : List (Chars × Json))
    (hfence : findSub (chars "```json") (serValue (Json.obj o)) = none) :
    clean_response (serValue (Json.obj o)) = serValue (Json.obj o) := by
  have hshape : serValue (Json.obj o) = '{' :: (serMembers o ++ ['}']) := by
    simp [serValue]
  have hstrip : pyStrip (serValue (Json.obj o)) = serValue (Json.obj o) := by
    rw [hshape]
    exact pyStrip_of_ends (by decide) (by decide) _
  have hfence2 : stripCodeFence (serValue (Json.obj o)) = serValue (Json.obj o) := by
    rw [stripCodeFence, hfence]
  have hslice : sliceToBraces (serValue (Json.obj o)) = serValue (Json.obj o) := by
    rw [hshape]
    exact sliceToBraces_obj _
  rw [clean_response, hstrip, hfence2, hslice]

set_option maxRecDepth 100000 in
/-- C9 counterexample: a report-shaped JSON value with every canonical key,
    every section value of its declared type (so the report construction
    itself would validate), but whose `overall_insights` string contains a
    markdown fence marker, is legal JSON — yet sanitizing its serialization
    fails entirely (the fence slicing extracts the inside of the "fence",
    which no longer parses), so `sanitize(serialize(value))` is not the
    value. -/
theorem C9_counterexample :
    fenceObject.map Prod.fst = canonicalSectionKeys ∧
    validAnalysisData fenceObject = true ∧
    sanitize (serValue (Json.obj fenceObject)) = none :=
  ⟨rfl, rfl, rfl⟩

/-- C9 amended: for every report-shaped JSON value carrying exactly the
    canonical section keys (objects well-formed, i.e. dict-like), with
    section values of the types the report model declares (so the
    construction's pydantic validation passes), and whose serialization
    does not contain the fence marker "```json", sanitizing the
    serialization succeeds and reproduces the value on every canonical
    section. -/
theorem C9_sanitize_roundtrip (o : List (Chars × Json))
    (hkeys : o.map Prod.fst = canonicalSectionKeys)
    (hwf : JsonWf (Json.obj o))
    (hvalid : validAnalysisData o = true)
    (hfence : findSub (chars "```json") (serValue (Json.obj o)) = none) :
    sanitize (serValue (Json.obj o)) = some (buildResult o) ∧
    canonicalSections (buildResult o) = o := by
  constructor
  · have hclean := clean_response_serObj o hfence
    have hload := json_loads_serValue (Json.obj o) hwf
    simp [sanitize, parse_response, parse_with_repair, hclean, hload, hvalid]
  ·
    rcases o with _ | ⟨⟨k1, v1⟩, o⟩
    · simp [canonicalSectionKeys] at hkeys
    simp only [List.map_cons, canonicalSectionKeys, List.cons.injEq] at hkeys
    obtain ⟨rfl, hkeys⟩ := hkeys
    rcases o with _ | ⟨⟨k2, v2⟩, o⟩
    · simp at hkeys
    simp only [List.map_cons, List.cons.injEq] at hkeys
    obtain ⟨rfl, hkeys⟩ := hkeys
    rcases o with _ | ⟨⟨k3, v3⟩, o⟩
    · simp at hkeys
    simp only [List.map_cons, List.cons.injEq] at hkeys
    obtain ⟨rfl, hkeys⟩ := hkeys
    rcases o with _ | ⟨⟨k4, v4⟩, o⟩
    · simp at hkeys
    simp only [List.map_cons, List.cons.injEq] at hkeys
    obtain ⟨rfl, hkeys⟩ := hkeys
    rcases o with _ | ⟨⟨k5, v5⟩, o⟩
    · simp at hkeys
    simp only [List.map_cons, List.cons.injEq] at hkeys
    obtain ⟨rfl, hkeys⟩ := hkeys
    rcases o with _ | ⟨⟨k6, v6⟩, o⟩
    · simp at hkeys
    simp only [List.map_cons, List.cons.injEq] at hkeys
    obtain ⟨rfl, hkeys⟩ := hkeys
    rcases o with _ | ⟨⟨k7, v7⟩, o⟩
    · simp at hkeys
    simp only [List.map_cons, List.cons.injEq] at hkeys
    obtain ⟨rfl, hkeys⟩ := hkeys
    rcases o with _ | ⟨⟨k8, v8⟩, o⟩
    · simp at hkeys
    simp only [List.map_cons, List.cons.injEq] at hkeys
    obtain ⟨rfl, hkeys⟩ := hkeys
    rcases o with _ | ⟨⟨k9, v9⟩, o⟩
    · simp at hkeys
    simp only [List.map_cons, List.cons.injEq] at hkeys
    obtain ⟨rfl, hkeys⟩ := hkeys
    rcases o with _ | ⟨⟨k10, v10⟩, o⟩
    · simp at hkeys
    simp only [List.map_cons, List.cons.injEq] at hkeys
    obtain ⟨rfl, hkeys⟩ := hkeys
    rcases o with _ | ⟨⟨k11, v11⟩, o⟩
    · simp at hkeys
    simp only [List.map_cons, List.cons.injEq] at hkeys
    obtain ⟨rfl, hkeys⟩ := hkeys
    rcases o with _ | ⟨⟨k12, v12⟩, o⟩
    · simp at hkeys
    simp only [List.map_cons, List.cons.injEq] at hkeys
    obtain ⟨rfl, hkeys⟩ := hkeys
    rcases o with _ | ⟨⟨k13, v13⟩, o⟩
    · simp at hkeys
    simp only [List.map_cons, List.cons.injEq] at hkeys
    obtain ⟨rfl, hkeys⟩ := hkeys
    rcases o with _ | ⟨⟨k14, v14⟩, o⟩
    · simp at hkeys
    simp only [List.map_cons, List.cons.injEq] at hkeys
    obtain ⟨rfl, hkeys⟩ := hkeys
    rcases o with _ | ⟨⟨k15, v15⟩, o⟩
    · simp at hkeys
    simp only [List.map_cons, List.cons.injEq] at hkeys
    obtain ⟨rfl, hkeys⟩ := hkeys
    rw [List.map_eq_nil_iff] at hkeys
    subst hkeys
    rfl

set_option maxRecDepth 100000 in
/-- C9 witness: the amended statement at a concrete report-shaped value
    whose sections carry their declared types. -/
theorem C9_sanitize_roundtrip_witness :
    sanitize (serValue (Json.obj plainObject)) = some (buildResult plainObject) ∧
    canonicalSections (buildResult plainObject) = plainObject := by
  have hwf : JsonWf (Json.obj plainObject) := by
    refine JsonWf.obj (by decide) ?_
    intro kv hkv
    simp only [plainObject, List.mem_cons, List.not_mem_nil, or_false] at hkv
    rcases hkv with rfl | rfl | rfl | rfl | rfl | rfl | rfl | rfl | rfl | rfl | rfl |
      rfl | rfl | rfl | rfl <;>
      first
        | exact JsonWf.obj (by simp) (by simp)
        | exact JsonWf.arr (by simp)
        | exact JsonWf.str _
  exact C9_sanitize_roundtrip plainObject rfl hwf rfl (by rfl)
